import Mathlib

/-!
# argocd-autopilot: the application model (`pkg/application/application.go`)

A shallow embedding of the application and bootstrap-application model, of the
parser that builds them from `CreateOptions`, and of the file helpers of the `app`
command, followed by the properties proved about them.

Conventions of the embedding:

* Go strings and byte slices are Lean `String`s, that is Unicode text; the fields of
  `Config` are byte strings (`Bytes`), since what `config.json` holds depends on whether
  their bytes are valid UTF-8.
* A Go function returning `(T, error)` returns `Except Error T`; a runtime panic is the
  error `Error.runtimePanic`.
* Pointers to structs are the struct values; in-place updates of `*v1alpha1.Application`
  are record updates threaded through the caller.
* Functions of third-party libraries (argo-cd, kustomize, yaml, the operating system) are
  fields of parameter structures: the repository code is embedded against any
  implementation of them.
-/

set_option autoImplicit false

namespace Autopilot

/-! ## Errors -/

/-- Go `error` values met in this package: the two sentinel errors of `application.go`,
errors made by `fmt.Errorf` or returned by a library (identified by their message), and
runtime panics. -/
inductive Error where
  | ErrEmptyAppSpecifier
  | ErrEmptyAppName
  | errorf (msg : String)
  | runtimePanic (msg : String)
  deriving DecidableEq, Repr

/-- The text returned by the `Error()` method. -/
def Error.message : Error → String
  | .ErrEmptyAppSpecifier => "empty app specifier not allowed"
  | .ErrEmptyAppName =>
    "app name cannot be empty, please specify application name with: --app-name"
  | .errorf msg => msg
  | .runtimePanic msg => msg

/-- The panic raised when a nil pointer is dereferenced. -/
def nilDereference : Error :=
  .runtimePanic "runtime error: invalid memory address or nil pointer dereference"

/-! ## Kubernetes and argo-cd descriptors (the fields this package reads or writes) -/

/-- The struct `metav1.TypeMeta` (also `kusttypes.TypeMeta`). -/
structure TypeMeta where
  APIVersion : String := ""
  Kind : String := ""
  deriving DecidableEq, Repr

/-- The struct `metav1.ObjectMeta`; `Labels` is the Go map, kept as its list of entries. -/
structure ObjectMeta where
  Name : String := ""
  Namespace : String := ""
  Labels : List (String × String) := []
  Finalizers : List String := []
  deriving DecidableEq, Repr

/-- The struct `v1alpha1.ApplicationSource`. -/
structure ApplicationSource where
  RepoURL : String := ""
  Path : String := ""
  TargetRevision : String := ""
  deriving DecidableEq, Repr

/-- The struct `v1alpha1.ApplicationDestination`. -/
structure ApplicationDestination where
  Server : String := ""
  Namespace : String := ""
  deriving DecidableEq, Repr

/-- The struct `v1alpha1.SyncPolicyAutomated`. -/
structure SyncPolicyAutomated where
  Prune : Bool := false
  SelfHeal : Bool := false
  deriving DecidableEq, Repr

/-- The struct `v1alpha1.SyncPolicy`; `Automated` is a pointer, `none` when nil. -/
structure SyncPolicy where
  Automated : Option SyncPolicyAutomated := none
  deriving DecidableEq, Repr

/-- The struct `v1alpha1.ApplicationSpec`; `SyncPolicy` is a pointer, `none` when nil. -/
structure ApplicationSpec where
  Source : ApplicationSource := {}
  Destination : ApplicationDestination := {}
  Project : String := ""
  SyncPolicy : Option SyncPolicy := none
  deriving DecidableEq, Repr

/-- The struct `v1alpha1.Application`. -/
structure Application where
  TypeMeta : TypeMeta := {}
  ObjectMeta : ObjectMeta := {}
  Spec : ApplicationSpec := {}
  deriving DecidableEq, Repr

/-- The struct `v1.Namespace`. -/
structure Namespace where
  TypeMeta : TypeMeta := {}
  ObjectMeta : ObjectMeta := {}
  deriving DecidableEq, Repr

/-- The struct `v1.LocalObjectReference`. -/
structure LocalObjectReference where
  Name : String := ""
  deriving DecidableEq, Repr

/-- The struct `v1.SecretKeySelector`. -/
structure SecretKeySelector where
  LocalObjectReference : LocalObjectReference := {}
  Key : String := ""
  deriving DecidableEq, Repr

/-- The struct `argocdsettings.Repository`; the two secrets are pointers. -/
structure Repository where
  URL : String := ""
  UsernameSecret : Option SecretKeySelector := none
  PasswordSecret : Option SecretKeySelector := none
  deriving DecidableEq, Repr

/-! ## Kustomize descriptors -/

/-- The struct `kusttypes.KvPairSources`. -/
structure KvPairSources where
  LiteralSources : List String := []
  FileSources : List String := []
  EnvSources : List String := []
  EnvSource : String := ""
  deriving DecidableEq, Repr

/-- The struct `kusttypes.GeneratorArgs`. -/
structure GeneratorArgs where
  Namespace : String := ""
  Name : String := ""
  Behavior : String := ""
  KvPairSources : KvPairSources := {}
  deriving DecidableEq, Repr

/-- The struct `kusttypes.ConfigMapArgs`. -/
structure ConfigMapArgs where
  GeneratorArgs : GeneratorArgs := {}
  deriving DecidableEq, Repr

/-- The struct `kusttypes.Kustomization`. -/
structure Kustomization where
  TypeMeta : TypeMeta := {}
  Namespace : String := ""
  Resources : List String := []
  Bases : List String := []
  ConfigMapGenerator : List ConfigMapArgs := []
  deriving DecidableEq, Repr

/-- Modelled from the spec: `kusttypes.BehaviorMerge.String()`, a constant of the kustomize
library; the spec fixes the generator behaviour as `behavior=merge`. -/
def BehaviorMerge : String := "merge"

/-- The names and methods of `sigs.k8s.io/kustomize/api/types` used by this package. -/
structure KustomizeTypes where
  KustomizationVersion : String
  KustomizationKind : String
  FixKustomizationPostUnmarshalling : Kustomization → Kustomization
  EnforceFields : Kustomization → List String
  FixKustomizationPreMarshalling : Kustomization → Kustomization

/-! ## Command-line flags and options -/

/-- A registered flag of a `pflag.FlagSet`: its name and the text of its value. -/
structure Flag where
  Name : String
  Value : String
  deriving DecidableEq, Repr

/-- The struct `pflag.FlagSet`, as the list of its registered flags. -/
structure FlagSet where
  formal : List Flag := []
  deriving DecidableEq, Repr

/-- The method `(*pflag.FlagSet).Lookup`: the flag of that name, `none` (nil) when there is
none. -/
def FlagSet.Lookup (f : FlagSet) (name : String) : Option Flag :=
  f.formal.find? (fun fl => fl.Name == name)

/-- The struct `argocdutil.AppOptions`: handed to `ConstructApp` and never inspected here. -/
structure AppOptions where
  settings : List (String × String) := []
  deriving DecidableEq, Repr

/-- The struct `CreateOptions`; `flags` is a pointer, `none` when nil. -/
structure CreateOptions where
  AppSpecifier : String := ""
  AppName : String := ""
  SrcPath : String := ""
  Namespace : String := ""
  Server : String := ""
  argoAppOptions : AppOptions := {}
  flags : Option FlagSet := none
  deriving DecidableEq, Repr

/-- The names and functions of the argo-cd packages used by this package. -/
structure ArgoCDLib where
  Group : String
  ApplicationKind : String
  ConstructApp : String → String → List String → List String → AppOptions →
    Option FlagSet → Except Error Application

/-- The value `store.Common` of this repository: the two label values it holds. -/
structure Store where
  ManagedBy : String
  RootName : String
  deriving DecidableEq, Repr

/-! ## Go strings as bytes -/

/-- A byte. -/
abbrev Byte := Fin 256

/-- A Go string as it is stored: a sequence of bytes, valid UTF-8 or not. -/
abbrev Bytes := List Byte

/-- The byte of a number, taken modulo 256. -/
def byte (n : Nat) : Byte := ⟨n % 256, Nat.mod_lt n (by decide)⟩

namespace Utf8

/-- The function `utf8.EncodeRune` on a Unicode scalar value: its UTF-8 bytes. -/
def EncodeRune (c : Char) : Bytes :=
  if c.toNat < 0x80 then [byte c.toNat]
  else if c.toNat < 0x800 then [byte (0xC0 + c.toNat / 64), byte (0x80 + c.toNat % 64)]
  else if c.toNat < 0x10000 then
    [byte (0xE0 + c.toNat / 4096), byte (0x80 + c.toNat / 64 % 64), byte (0x80 + c.toNat % 64)]
  else
    [byte (0xF0 + c.toNat / 262144), byte (0x80 + c.toNat / 4096 % 64),
     byte (0x80 + c.toNat / 64 % 64), byte (0x80 + c.toNat % 64)]

/-- The bytes of a text: the conversion of a string of Unicode text to its bytes. -/
def encode : List Char → Bytes
  | [] => []
  | c :: cs => EncodeRune c ++ encode cs

/-- Whether a byte lies between two bounds. -/
def inRange (b : Byte) (lo hi : Nat) : Bool := lo ≤ b.val && b.val ≤ hi

/-- The function `utf8.DecodeRuneInString` where it succeeds: the scalar value the bytes
begin with and the number of bytes it takes; `none` where the bytes begin with no well
formed sequence (Go then returns `RuneError` with width 1). -/
def DecodeRune : Bytes → Option (Char × Nat)
  | [] => none
  | b0 :: rest =>
    if b0.val < 0x80 then some (Char.ofNat b0.val, 1)
    else if 0xC2 ≤ b0.val ∧ b0.val ≤ 0xDF then
      match rest with
      | b1 :: _ =>
        if inRange b1 0x80 0xBF then
          some (Char.ofNat ((b0.val - 0xC0) * 64 + (b1.val - 0x80)), 2)
        else none
      | _ => none
    else if 0xE0 ≤ b0.val ∧ b0.val ≤ 0xEF then
      match rest with
      | b1 :: b2 :: _ =>
        if inRange b1 (if b0.val = 0xE0 then 0xA0 else 0x80) (if b0.val = 0xED then 0x9F else 0xBF)
            && inRange b2 0x80 0xBF then
          some (Char.ofNat ((b0.val - 0xE0) * 4096 + (b1.val - 0x80) * 64 + (b2.val - 0x80)), 3)
        else none
      | _ => none
    else if 0xF0 ≤ b0.val ∧ b0.val ≤ 0xF4 then
      match rest with
      | b1 :: b2 :: b3 :: _ =>
        if inRange b1 (if b0.val = 0xF0 then 0x90 else 0x80) (if b0.val = 0xF4 then 0x8F else 0xBF)
            && inRange b2 0x80 0xBF && inRange b3 0x80 0xBF then
          some (Char.ofNat ((b0.val - 0xF0) * 262144 + (b1.val - 0x80) * 4096 +
            (b2.val - 0x80) * 64 + (b3.val - 0x80)), 4)
        else none
      | _ => none
    else none

/-- A byte string read the way a loop over `utf8.DecodeRuneInString` reads it: `skip`
counts the bytes of the sequence just decoded that are still to be passed over; each well
formed sequence gives its scalar value and each other byte gives `none`. -/
def runesAux : Nat → Bytes → List (Option Char)
  | _, [] => []
  | skip + 1, _ :: bs => runesAux skip bs
  | 0, b :: bs =>
    match DecodeRune (b :: bs) with
    | some (c, size) => some c :: runesAux (size - 1) bs
    | none => none :: runesAux 0 bs

/-- The scalar values and stray bytes of a byte string. -/
def runes (s : Bytes) : List (Option Char) := runesAux 0 s

/-- A byte string is valid UTF-8 when it is the encoding of a text. -/
def Valid (s : Bytes) : Prop := ∃ cs : List Char, s = encode cs

/-- The character a decoder puts for what it read: U+FFFD for a stray byte. -/
def replacement : Option Char → Char
  | some c => c
  | none => Char.ofNat 0xFFFD

/-- The text of a byte string, every stray byte replaced by U+FFFD. -/
def text (s : Bytes) : String := String.mk ((runes s).map replacement)

end Utf8

/-! ## The application model -/

/-- The constant `defaultDestServer`. -/
def defaultDestServer : String := "https://kubernetes.default.svc"

/-- A `filesys.FileSystem` made by `filesys.MakeFsOnDisk()`: a handle on the disk. -/
inductive FileSystem where
  | onDisk
  deriving DecidableEq, Repr

/-- The struct `application`; the field `namespace` is spelt `namespace_`. -/
structure application where
  tag : String := ""
  name : String := ""
  namespace_ : String := ""
  path : String := ""
  fs : FileSystem := .onDisk
  argoApp : Application := {}
  deriving DecidableEq, Repr

/-- The struct `bootstrapApp`: an embedded `*application` and the repository URL. -/
structure bootstrapApp where
  application : application
  repoUrl : String := ""
  deriving DecidableEq, Repr

/-- The struct `Config` (`config.json`). -/
structure Config where
  AppName : Bytes := []
  UserGivenName : Bytes := []
  DestNamespace : Bytes := []
  DestServer : Bytes := []
  deriving DecidableEq, Repr

/-- The function `getLabels`. -/
def getLabels (appName : String) : List String :=
  ["app.kubernetes.io/managed-by=argo-autopilot", "app.kubernetes.io/name=" ++ appName]

/-- The function `parseApplication`. -/
def parseApplication (A : ArgoCDLib) (o : CreateOptions) : Except Error application :=
  if o.AppSpecifier = "" then
    .error .ErrEmptyAppSpecifier
  else if o.AppName = "" then
    .error .ErrEmptyAppName
  else
    match A.ConstructApp "" o.AppName (getLabels o.AppName) [] o.argoAppOptions o.flags with
    | .error err => .error err
    | .ok argoApp =>
      -- set default options
      let argoApp := { argoApp with
        Spec := { argoApp.Spec with
          SyncPolicy := some { Automated := some { SelfHeal := true, Prune := true } } } }
      .ok { name := o.AppName
            path := o.AppSpecifier
            namespace_ := o.Namespace
            fs := .onDisk
            argoApp := argoApp }

/-- The method `(*CreateOptions).Parse`. -/
def CreateOptions.Parse (A : ArgoCDLib) (o : CreateOptions) : Except Error application :=
  parseApplication A o

/-- The method `(*CreateOptions).ParseBootstrap`. The four assignments update the argo-cd
application the new `application` points to; `o.flags.Lookup("repo").Value` panics when
`o.flags` is nil or has no flag `repo`. -/
def CreateOptions.ParseBootstrap (A : ArgoCDLib) (o : CreateOptions) :
    Except Error bootstrapApp :=
  match parseApplication A o with
  | .error err => .error err
  | .ok app =>
    let argoApp := app.argoApp
    let argoApp := { argoApp with
      ObjectMeta := { argoApp.ObjectMeta with Namespace := app.namespace_ } }
    let argoApp := { argoApp with
      Spec := { argoApp.Spec with
        Destination := { argoApp.Spec.Destination with Server := defaultDestServer } } }
    let argoApp := { argoApp with
      Spec := { argoApp.Spec with
        Destination := { argoApp.Spec.Destination with Namespace := app.namespace_ } } }
    let argoApp := { argoApp with
      Spec := { argoApp.Spec with
        Source := { argoApp.Spec.Source with Path := o.SrcPath } } }
    let app := { app with argoApp := argoApp }
    match o.flags with
    | none => .error nilDereference
    | some flags =>
      match flags.Lookup "repo" with
      | none => .error nilDereference
      | some flag => .ok { application := app, repoUrl := flag.Value }

/-- The method `(*application).Base`. -/
def application.Base (K : KustomizeTypes) (app : application) : Kustomization :=
  { Resources := [app.path]
    TypeMeta := { APIVersion := K.KustomizationVersion, Kind := K.KustomizationKind } }

/-- The method `(*application).Overlay`. -/
def application.Overlay (K : KustomizeTypes) (_app : application) : Kustomization :=
  { Resources := ["../../base"]
    TypeMeta := { APIVersion := K.KustomizationVersion, Kind := K.KustomizationKind } }

/-- The method `(*application).ConfigJson`; the fields of the argo-cd application are
texts, the fields of `Config` their bytes. -/
def application.ConfigJson (app : application) : Config :=
  { AppName := Utf8.encode app.argoApp.ObjectMeta.Name.data
    UserGivenName := Utf8.encode app.argoApp.ObjectMeta.Name.data
    DestNamespace := Utf8.encode app.argoApp.Spec.Destination.Namespace.data
    DestServer := Utf8.encode app.argoApp.Spec.Destination.Server.data }

/-- The method `(*bootstrapApp).ArgoCD`. -/
def bootstrapApp.ArgoCD (app : bootstrapApp) : Application :=
  app.application.argoApp

/-! ## The bootstrap application -/

/-- The function `yaml.Marshal` of `github.com/ghodss/yaml`, at the three types it is called
at in this package. -/
structure Yaml where
  MarshalRepositories : List Repository → Except Error String
  MarshalKustomization : Kustomization → Except Error String
  MarshalNamespace : Namespace → Except Error String

/-- The function `createCreds`. -/
def createCreds (Y : Yaml) (repoUrl : String) : Except Error String :=
  let creds : List Repository :=
    [{ URL := repoUrl
       UsernameSecret := some
         { LocalObjectReference := { Name := "autopilot-secret" }, Key := "git_username" }
       PasswordSecret := some
         { LocalObjectReference := { Name := "autopilot-secret" }, Key := "git_token" } }]
  Y.MarshalRepositories creds

/-- The method `(*bootstrapApp).Kustomization`. -/
def bootstrapApp.Kustomization (K : KustomizeTypes) (Y : Yaml) (app : bootstrapApp) :
    Except Error Kustomization :=
  match createCreds Y app.repoUrl with
  | .error err => .error err
  | .ok credsYAML =>
    let k : Autopilot.Kustomization :=
      { Resources := [app.application.path]
        TypeMeta := { APIVersion := K.KustomizationVersion, Kind := K.KustomizationKind }
        ConfigMapGenerator :=
          [{ GeneratorArgs :=
              { Name := "argocd-cm"
                Behavior := BehaviorMerge
                KvPairSources :=
                  { LiteralSources := ["repository.credentials=" ++ credsYAML] } } }]
        Namespace := app.application.namespace_ }
    let k := K.FixKustomizationPostUnmarshalling k
    let errs := K.EnforceFields k
    if errs.length > 0 then
      .error (.errorf ("kustomization errors: " ++ "\n".intercalate errs))
    else
      let k := K.FixKustomizationPreMarshalling k
      .ok k

/-- The method `(*bootstrapApp).RootApp`. The receiver is a pointer: the result is the
descriptor returned together with the receiver as the call leaves it. -/
def bootstrapApp.RootApp (A : ArgoCDLib) (S : Store) (app : bootstrapApp)
    (revision srcPath : String) : Application × bootstrapApp :=
  ({ TypeMeta := { APIVersion := A.Group ++ "/v1alpha1", Kind := A.ApplicationKind }
     ObjectMeta :=
       { Namespace := app.application.namespace_
         Name := "root"
         Labels :=
           [("app.kubernetes.io/managed-by", S.ManagedBy),
            ("app.kubernetes.io/name", S.RootName)]
         Finalizers := ["resources-finalizer.argocd.argoproj.io"] }
     Spec :=
       { Source := { RepoURL := app.repoUrl, Path := srcPath, TargetRevision := revision }
         Destination :=
           { Server := "https://kubernetes.default.svc"
             Namespace := app.application.namespace_ }
         SyncPolicy := some { Automated := some { SelfHeal := true, Prune := true } } } },
   app)

/-- Modelled from the spec: `util.Die`, which is not among the sources. The spec treats a
failed serialization of a fixed-shape structure as a fatal programming error: `Die` does
nothing on a nil error and aborts with the error otherwise. -/
def Die (err : Option Error) : Except Error Unit :=
  match err with
  | none => .ok ()
  | some e => .error (.runtimePanic e.message)

/-- The function `createNamespace`. -/
def createNamespace (Y : Yaml) (namespace_ : String) : Except Error String :=
  let ns : Namespace :=
    { TypeMeta := { APIVersion := "v1", Kind := "Namespace" }
      ObjectMeta := { Name := namespace_ } }
  match Y.MarshalNamespace ns with
  | .error err =>
    match Die (some err) with
    | .error fatal => .error fatal
    | .ok () => .ok ""
  | .ok data =>
    match Die none with
    | .error fatal => .error fatal
    | .ok () => .ok data

/-- Modelled from the spec: the separator `util.JoinManifests` puts between manifests, which
is not among the sources. The spec joins the manifests as independent YAML documents: the
separator is the YAML document marker on a line of its own. -/
def yamlSeparator : String := "\n---\n"

/-- Modelled from the spec: `util.JoinManifests`, which is not among the sources. The spec
has it concatenate its arguments, in order, separated as independent YAML documents. -/
def JoinManifests (manifests : List String) : String :=
  yamlSeparator.intercalate manifests

/-- The struct `krusty.Options`: the one option this package sets. -/
structure Options where
  DoLegacyResourceSort : Bool := false
  deriving DecidableEq, Repr

/-- The functions of `sigs.k8s.io/kustomize/api/krusty` used by this package, over a state
`σ` of the machine (disk and whatever else a build reads) and a type `ρ` of build results:
`MakeDefaultOptions`, `MakeKustomizer(opts).Run(fs, path)` and `ResMap.AsYaml`. -/
structure Krusty (σ ρ : Type) where
  MakeDefaultOptions : Options
  Run : Options → FileSystem → String → σ → Except Error ρ × σ
  AsYaml : ρ → Except Error String

/-- The functions of `io/ioutil`, `os` and `path/filepath` used by this package, over a state
`σ` of the machine. `RemoveAll` is only called deferred, where its error is dropped. -/
structure OS (σ : Type) where
  TempDir : String → String → σ → Except Error String × σ
  RemoveAll : String → σ → σ
  WriteFile : String → String → Nat → σ → Option Error × σ
  Join : String → String → String
  Dir : String → String

/-- The method `(*application).kustomizeBuild` (the logging call is left out). -/
def application.kustomizeBuild {σ ρ : Type} (B : Krusty σ ρ) (app : application) (w : σ) :
    Except Error String × σ :=
  let kopts := B.MakeDefaultOptions
  let kopts := { kopts with DoLegacyResourceSort := true }
  match B.Run kopts app.fs app.path w with
  | (.error err, w) => (.error err, w)
  | (.ok res, w) => (B.AsYaml res, w)

/-- The body of `(*bootstrapApp).GenerateManifests` after the temporary directory `td` has
been made, up to its return (the logging call is left out). -/
def bootstrapApp.generateManifestsIn {σ ρ : Type} (K : KustomizeTypes) (Y : Yaml)
    (B : Krusty σ ρ) (O : OS σ) (app : bootstrapApp) (td : String) (w : σ) :
    Except Error String × σ :=
  let kustPath := O.Join td "kustomization.yaml"
  match app.Kustomization K Y with
  | .error err => (.error err, w)
  | .ok k =>
    match Y.MarshalKustomization k with
    | .error err => (.error err, w)
    | .ok kyaml =>
      match O.WriteFile kustPath kyaml 0o400 w with
      | (some err, w) => (.error err, w)
      | (none, w) =>
        let opts := B.MakeDefaultOptions
        let opts := { opts with DoLegacyResourceSort := true }
        let fs := FileSystem.onDisk
        match B.Run opts fs (O.Dir kustPath) w with
        | (.error err, w) => (.error err, w)
        | (.ok res, w) =>
          match B.AsYaml res with
          | .error err => (.error err, w)
          | .ok bootstrapManifests =>
            match createNamespace Y app.application.namespace_ with
            | .error fatal => (.error fatal, w)
            | .ok ns => (.ok (JoinManifests [ns, bootstrapManifests]), w)

/-- The method `(*bootstrapApp).GenerateManifests`: the deferred `os.RemoveAll(td)` runs on
every way out once the temporary directory exists. -/
def bootstrapApp.GenerateManifests {σ ρ : Type} (K : KustomizeTypes) (Y : Yaml)
    (B : Krusty σ ρ) (O : OS σ) (app : bootstrapApp) (w : σ) : Except Error String × σ :=
  match O.TempDir "" "auto-pilot" w with
  | (.error err, w) => (.error err, w)
  | (.ok td, w) =>
    match app.generateManifestsIn K Y B O td w with
    | (res, w) => (res, O.RemoveAll td w)

/-- Splitting a byte stream on a separator `sep`, as `strings.Split` does: `skip` counts the
characters of a separator just matched that are still to be passed over, `doc` holds the
current document in reverse. -/
def splitAux (sep : List Char) : Nat → List Char → List Char → List (List Char)
  | _, [], doc => [doc.reverse]
  | skip + 1, _ :: cs, doc => splitAux sep skip cs doc
  | 0, c :: cs, doc =>
    if sep.isPrefixOf (c :: cs) then doc.reverse :: splitAux sep (sep.length - 1) cs []
    else splitAux sep 0 cs (c :: doc)

/-- The documents of a manifest stream: the stream split on the document separator. -/
def splitDocuments (s : String) : List String :=
  (splitAux yamlSeparator.data 0 s.data []).map String.mk

/-! ## The `config.json` codec

`encoding/json` at the type `Config`, with the shape the spec gives the file: a flat JSON
object of the four string fields, each left out when empty. A string is written scalar
value by scalar value, a byte that is not part of valid UTF-8 being written as the escape
of U+FFFD; it is read back as the UTF-8 bytes of the text of its literal. -/

namespace Json

/-- The lower-case hexadecimal digit of `n < 16`. -/
def hexDigit (n : Nat) : Char :=
  if n < 10 then Char.ofNat (48 + n) else Char.ofNat (87 + n)

/-- The four hexadecimal digits of `n < 65536`. -/
def hex4 (n : Nat) : List Char :=
  [hexDigit (n / 4096 % 16), hexDigit (n / 256 % 16), hexDigit (n / 16 % 16), hexDigit (n % 16)]

/-- The characters written as a `\uXXXX` escape: control characters, the three HTML
characters and the two Unicode line separators. -/
def needsUnicodeEscape (c : Char) : Bool :=
  c.toNat < 0x20 || c == '<' || c == '>' || c == '&' || c.toNat == 0x2028 || c.toNat == 0x2029

/-- The text of one character inside a JSON string. -/
def escapeChar (c : Char) : List Char :=
  if c = '"' then ['\\', '"']
  else if c = '\\' then ['\\', '\\']
  else if c = '\n' then ['\\', 'n']
  else if c = '\r' then ['\\', 'r']
  else if c = '\t' then ['\\', 't']
  else if needsUnicodeEscape c then '\\' :: 'u' :: hex4 c.toNat
  else [c]

/-- The text, inside a JSON string, of what a Go string holds at one place: a scalar value,
or a byte that is not part of valid UTF-8, written as the escape of U+FFFD. -/
def escapeRune : Option Char → List Char
  | some c => escapeChar c
  | none => ['\\', 'u', 'f', 'f', 'f', 'd']

/-- The text of a run of scalar values and stray bytes inside a JSON string. -/
def escape : List (Option Char) → List Char
  | [] => []
  | r :: rs => escapeRune r ++ escape rs

/-- A JSON string literal. -/
def quote (rs : List (Option Char)) : List Char :=
  '"' :: (escape rs ++ ['"'])

/-- One member `"key":"value"` of an object: the key is a text, the value a Go string. -/
def encodeMember (kv : String × Bytes) : List Char :=
  quote (kv.1.data.map some) ++ ':' :: quote (Utf8.runes kv.2)

/-- The members of an object, separated by commas. -/
def encodeMembers : List (String × Bytes) → List Char
  | [] => []
  | [kv] => encodeMember kv
  | kv :: kvs => encodeMember kv ++ ',' :: encodeMembers kvs

/-- A flat JSON object of string members. -/
def encodeObject (kvs : List (String × Bytes)) : List Char :=
  '{' :: (encodeMembers kvs ++ ['}'])

/-- What a JSON string literal is made of: a character (written as is, or as a
two-character escape) or the UTF-16 code unit of a `\uXXXX` escape. -/
inductive Piece where
  | char (c : Char)
  | unit (v : Nat)
  deriving DecidableEq, Repr

/-- The value of a hexadecimal digit. -/
def hexVal (c : Char) : Option Nat :=
  if 48 ≤ c.toNat ∧ c.toNat ≤ 57 then some (c.toNat - 48)
  else if 97 ≤ c.toNat ∧ c.toNat ≤ 102 then some (c.toNat - 87)
  else if 65 ≤ c.toNat ∧ c.toNat ≤ 70 then some (c.toNat - 55)
  else none

/-- The character a two-character escape `\e` stands for. -/
def simpleEscape (e : Char) : Option Char :=
  if e = '"' then some '"'
  else if e = '\\' then some '\\'
  else if e = '/' then some '/'
  else if e = 'b' then some (Char.ofNat 8)
  else if e = 'f' then some (Char.ofNat 12)
  else if e = 'n' then some '\n'
  else if e = 'r' then some '\r'
  else if e = 't' then some '\t'
  else none

/-- Reads a string literal after its opening quote, up to the closing quote: its pieces and
the input left. Fails on an unknown escape, a raw control character or a missing quote. -/
def scanString : List Char → Option (List Piece × List Char)
  | [] => none
  | c :: rest =>
    if c = '"' then some ([], rest)
    else if c = '\\' then
      match rest with
      | [] => none
      | e :: rest =>
        if e = 'u' then
          match rest with
          | h3 :: h2 :: h1 :: h0 :: rest =>
            match hexVal h3, hexVal h2, hexVal h1, hexVal h0, scanString rest with
            | some x3, some x2, some x1, some x0, some (ps, r) =>
              some (.unit (((x3 * 16 + x2) * 16 + x1) * 16 + x0) :: ps, r)
            | _, _, _, _, _ => none
          | _ => none
        else
          match simpleEscape e, scanString rest with
          | some d, some (ps, r) => some (.char d :: ps, r)
          | _, _ => none
    else if c.toNat < 0x20 then none
    else
      match scanString rest with
      | some (ps, r) => some (.char c :: ps, r)
      | none => none

/-- The first half of a UTF-16 surrogate pair. -/
def isHighSurrogate (v : Nat) : Bool := 0xD800 ≤ v && v < 0xDC00

/-- The second half of a UTF-16 surrogate pair. -/
def isLowSurrogate (v : Nat) : Bool := 0xDC00 ≤ v && v < 0xE000

/-- The character of a single code unit; a lone surrogate becomes U+FFFD. -/
def unitChar (v : Nat) : Char :=
  if isHighSurrogate v || isLowSurrogate v then Char.ofNat 0xFFFD else Char.ofNat v

/-- The characters of a list of pieces; a surrogate pair makes one character. -/
def combine : List Piece → List Char
  | [] => []
  | .char c :: rest => c :: combine rest
  | .unit hi :: .unit lo :: rest =>
    if isHighSurrogate hi && isLowSurrogate lo then
      Char.ofNat (0x10000 + (hi - 0xD800) * 0x400 + (lo - 0xDC00)) :: combine rest
    else unitChar hi :: combine (.unit lo :: rest)
  | .unit v :: rest => unitChar v :: combine rest

/-- Reads a JSON string literal: its value and the input left. -/
def parseString : List Char → Option (String × List Char)
  | [] => none
  | c :: rest =>
    if c = '"' then
      match scanString rest with
      | some (ps, r) => some (String.mk (combine ps), r)
      | none => none
    else none

/-- Drops leading JSON white space. -/
def skipWs : List Char → List Char
  | [] => []
  | c :: cs => if c = ' ' ∨ c = '\t' ∨ c = '\n' ∨ c = '\r' then skipWs cs else c :: cs

/-- Reads the members of an object up to its closing brace. Each member takes one unit of
fuel; `parseObject` gives as much fuel as there are characters. -/
def parseMembers : Nat → List Char → Option (List (String × String) × List Char)
  | 0, _ => none
  | fuel + 1, cs =>
    match parseString (skipWs cs) with
    | none => none
    | some (k, cs) =>
      match skipWs cs with
      | [] => none
      | c :: cs =>
        if c = ':' then
          match parseString (skipWs cs) with
          | none => none
          | some (v, cs) =>
            match skipWs cs with
            | [] => none
            | d :: cs =>
              if d = ',' then
                match parseMembers fuel cs with
                | some (kvs, r) => some ((k, v) :: kvs, r)
                | none => none
              else if d = '}' then some ([(k, v)], cs)
              else none
        else none

/-- Reads a whole document that is a flat JSON object of string members. -/
def parseObject (cs : List Char) : Option (List (String × String)) :=
  match skipWs cs with
  | [] => none
  | c :: cs =>
    if c = '{' then
      match skipWs cs with
      | [] => none
      | d :: rest =>
        if d = '}' then (if skipWs rest = [] then some [] else none)
        else
          match parseMembers (d :: rest).length (d :: rest) with
          | some (kvs, r) => if skipWs r = [] then some kvs else none
          | none => none
    else none

/-- The piece the text `escapeChar c` is read back as. -/
def pieceOfChar (c : Char) : Piece :=
  if c = '"' ∨ c = '\\' ∨ c = '\n' ∨ c = '\r' ∨ c = '\t' then .char c
  else if needsUnicodeEscape c then .unit c.toNat
  else .char c

/-- The piece the text `escapeRune r` is read back as. -/
def pieceOf : Option Char → Piece
  | some c => pieceOfChar c
  | none => .unit 0xFFFD

/-- A member as it is read back: the value is the text of the Go string written. -/
def readBack (kv : String × Bytes) : String × String :=
  (kv.1, Utf8.text kv.2)

end Json

/-- The JSON members of a `Config`, in the order of the struct, under the names of its
`json` tags. -/
def Config.fields (c : Config) : List (String × Bytes) :=
  [("appName", c.AppName), ("userGivenName", c.UserGivenName),
   ("destNamespace", c.DestNamespace), ("destServer", c.DestServer)]

/-- Stores the value of one JSON member, a text, into a `Config` as its UTF-8 bytes; a name
that is no field of it is skipped. -/
def Config.setField (c : Config) (k v : String) : Config :=
  if k = "appName" then { c with AppName := Utf8.encode v.data }
  else if k = "userGivenName" then { c with UserGivenName := Utf8.encode v.data }
  else if k = "destNamespace" then { c with DestNamespace := Utf8.encode v.data }
  else if k = "destServer" then { c with DestServer := Utf8.encode v.data }
  else c

/-- A `Config` whose four fields are valid UTF-8. -/
def Config.ValidUTF8 (c : Config) : Prop :=
  Utf8.Valid c.AppName ∧ Utf8.Valid c.UserGivenName ∧ Utf8.Valid c.DestNamespace ∧
    Utf8.Valid c.DestServer

/-- Modelled from the spec: `json.Marshal` at the type `Config`, as `config.json` is
written. The spec gives the file as a flat JSON object
`{appName, userGivenName, destNamespace, destServer}` with every field omitted if empty;
`encoding/json` writes a byte that is not part of valid UTF-8 as the escape of U+FFFD. -/
def jsonMarshalConfig (c : Config) : String :=
  String.mk (Json.encodeObject (c.fields.filter fun kv => kv.2 ≠ []))

/-- Modelled from the spec: `json.Unmarshal` into an empty `Config`, as `config.json` is
read back. It succeeds on a flat JSON object of string members, every field being
optional, and fails on a file that is not valid for that shape. -/
def jsonUnmarshalConfig (b : String) : Option Config :=
  match Json.parseObject b.data with
  | some kvs => some (kvs.foldl (fun c kv => c.setField kv.1 kv.2) {})
  | none => none

/-! ## The file helpers of the `app` command (`cmd/commands/app.go`) -/

/-- The operations of the injected filesystem (interface `fs.FS`) that the file helpers
use, over a type `σ` of filesystem states. `ReadFile` opens a file and reads it whole;
`WriteFile` returns the error, if any, and the state after the write. -/
structure FS (σ : Type) where
  Root : σ → String
  Join : String → String → String
  Exists : σ → String → Except Error Bool
  WriteFile : σ → String → String → Option Error × σ
  ReadFile : σ → String → Except Error String

/-- What every filesystem does: a file that was written is there and reads back as
written, and a file that is not there cannot be read. -/
structure FS.Lawful {σ : Type} (F : FS σ) : Prop where
  read_write : ∀ s path data s', F.WriteFile s path data = (none, s') →
    F.ReadFile s' path = .ok data
  exists_write : ∀ s path data s', F.WriteFile s path data = (none, s') →
    F.Exists s' path = .ok true
  read_absent : ∀ s path, F.Exists s path = .ok false → ∃ err, F.ReadFile s path = .error err

/-- Modelled from the spec: the method `CheckExistsOrWrite` of `fs.FS`, which is not among
the sources. Exists-or-write: a file already at the path is not overwritten and is
reported with `true`; otherwise the data is written and `false` reported; a failure of the
check or of the write is returned. -/
def FS.CheckExistsOrWrite {σ : Type} (F : FS σ) (path data : String) (s : σ) :
    Except Error Bool × σ :=
  match F.Exists s path with
  | .error err => (.error err, s)
  | .ok true => (.ok true, s)
  | .ok false =>
    match F.WriteFile s path data with
    | (some err, s) => (.error err, s)
    | (none, s) => (.ok false, s)

/-- Modelled from the spec: `writeApplicationFile`, which is not among the sources (its
test is). It has exists-or-write semantics, reports an existing file with `true` and no
error, and on a write failure returns an error naming the file label and the resolved
path: `failed to create '<label>' file at '<path>': <cause>`. -/
def writeApplicationFile {σ : Type} (F : FS σ) (path name data : String) (s : σ) :
    Except Error Bool × σ :=
  let absPath := F.Join (F.Root s) path
  match F.CheckExistsOrWrite path data s with
  | (.error err, s) =>
    (.error (.errorf
      ("failed to create '" ++ name ++ "' file at '" ++ absPath ++ "': " ++ err.message)), s)
  | (.ok alreadyExisted, s) => (.ok alreadyExisted, s)

/-- Modelled from the spec: `getConfigFileFromPath`, which is not among the sources (its
test is). It reads `<appName>/config.json`; it fails with `<appName>/config.json not found`
when the file is absent and with `failed to unmarshal file <appName>/config.json` when the
file is not valid for the `Config` shape, and returns the decoded `Config` otherwise. -/
def getConfigFileFromPath {σ : Type} (F : FS σ) (appName : String) (s : σ) :
    Except Error Config :=
  let confFileName := appName ++ "/" ++ "config.json"
  match F.ReadFile s confFileName with
  | .error _ => .error (.errorf (confFileName ++ " not found"))
  | .ok b =>
    match jsonUnmarshalConfig b with
    | none => .error (.errorf ("failed to unmarshal file " ++ confFileName))
    | some conf => .ok conf

/-! ## Implementations of the library interfaces

The theorems below hold for every implementation of the library interfaces; the ones here
are used to run the embedding on concrete inputs. -/

/-- What `Kustomization()` needs from the two fix-ups of the kustomize library: on a
descriptor without `bases`, whose generators do not use the deprecated `env` source, the
fix-up after unmarshalling changes neither resources, namespace nor generators, and the
fix-up before marshalling never does. -/
structure KustomizeTypes.KeepsFields (K : KustomizeTypes) : Prop where
  postUnmarshalling : ∀ k : Kustomization, k.Bases = [] →
    (∀ g ∈ k.ConfigMapGenerator, g.GeneratorArgs.KvPairSources.EnvSource = "") →
    (K.FixKustomizationPostUnmarshalling k).Resources = k.Resources ∧
    (K.FixKustomizationPostUnmarshalling k).Namespace = k.Namespace ∧
    (K.FixKustomizationPostUnmarshalling k).ConfigMapGenerator = k.ConfigMapGenerator
  preMarshalling : ∀ k : Kustomization,
    (K.FixKustomizationPreMarshalling k).Resources = k.Resources ∧
    (K.FixKustomizationPreMarshalling k).Namespace = k.Namespace ∧
    (K.FixKustomizationPreMarshalling k).ConfigMapGenerator = k.ConfigMapGenerator

/-- What `Kustomization()` needs from the kustomize library for its field validation: a
descriptor that carries the library's own apiVersion and kind keeps them through the fix-up
after unmarshalling, and `EnforceFields` reports no error on such a descriptor. -/
structure KustomizeTypes.AcceptsStandard (K : KustomizeTypes) : Prop where
  postUnmarshalling : ∀ k : Kustomization,
    k.TypeMeta = { APIVersion := K.KustomizationVersion, Kind := K.KustomizationKind } →
    (K.FixKustomizationPostUnmarshalling k).TypeMeta = k.TypeMeta
  enforceFields : ∀ k : Kustomization,
    k.TypeMeta = { APIVersion := K.KustomizationVersion, Kind := K.KustomizationKind } →
    K.EnforceFields k = []

/-- The package `sigs.k8s.io/kustomize/api/types` on the fields of `Kustomization` kept
here. After unmarshalling, an empty kind and apiVersion get their defaults, `bases` are
moved to the end of `resources` and a generator's deprecated `env` source is moved to its
`envs`; before marshalling only patch fields, not kept here, are touched; `EnforceFields`
reports a kind or apiVersion that is set to something else than the expected one. -/
def kustomizeTypes : KustomizeTypes where
  KustomizationVersion := "kustomize.config.k8s.io/v1beta1"
  KustomizationKind := "Kustomization"
  FixKustomizationPostUnmarshalling := fun k =>
    let k := if k.TypeMeta.Kind = "" then
      { k with TypeMeta := { k.TypeMeta with Kind := "Kustomization" } } else k
    let k := if k.TypeMeta.APIVersion = "" then
      { k with TypeMeta := { k.TypeMeta with
          APIVersion := if k.TypeMeta.Kind = "Component"
            then "kustomize.config.k8s.io/v1alpha1" else "kustomize.config.k8s.io/v1beta1" } }
      else k
    let k := { k with Resources := k.Resources ++ k.Bases, Bases := [] }
    { k with ConfigMapGenerator := k.ConfigMapGenerator.map fun g =>
        if g.GeneratorArgs.KvPairSources.EnvSource = "" then g
        else { g with GeneratorArgs := { g.GeneratorArgs with
                KvPairSources := { g.GeneratorArgs.KvPairSources with
                  EnvSources := g.GeneratorArgs.KvPairSources.EnvSources ++
                    [g.GeneratorArgs.KvPairSources.EnvSource]
                  EnvSource := "" } } } }
  EnforceFields := fun k =>
    let errs : List String := []
    let errs := if k.TypeMeta.Kind ≠ "" ∧ k.TypeMeta.Kind ≠ "Kustomization" ∧
        k.TypeMeta.Kind ≠ "Component" then
      errs ++ ["kind should be Kustomization or Component"] else errs
    let requiredVersion := if k.TypeMeta.Kind = "Component"
      then "kustomize.config.k8s.io/v1alpha1" else "kustomize.config.k8s.io/v1beta1"
    if k.TypeMeta.APIVersion ≠ "" ∧ k.TypeMeta.APIVersion ≠ requiredVersion then
      errs ++ ["apiVersion for " ++ k.TypeMeta.Kind ++ " should be " ++ requiredVersion]
    else errs
  FixKustomizationPreMarshalling := fun k => k

/-- The text of the flag `name`, empty when the flag set is nil or has no such flag. -/
def flagValue (flags : Option FlagSet) (name : String) : String :=
  match flags with
  | none => ""
  | some f =>
    match f.Lookup name with
    | some flag => flag.Value
    | none => ""

/-- An argo-cd library whose `ConstructApp` always succeeds: the application gets the name
asked for, and source and destination as the flags give them. -/
def sampleArgoCD : ArgoCDLib where
  Group := "argoproj.io"
  ApplicationKind := "Application"
  ConstructApp := fun _fileURL appName _labels _args _appOpts flags =>
    .ok { TypeMeta := { APIVersion := "argoproj.io/v1alpha1", Kind := "Application" }
          ObjectMeta := { Name := appName }
          Spec :=
            { Source := { RepoURL := flagValue flags "repo", Path := flagValue flags "path" }
              Destination :=
                { Server := flagValue flags "dest-server"
                  Namespace := flagValue flags "dest-namespace" } } }

/-- Options of a bootstrap run whose flags name another cluster, namespace and path than
the bootstrap application ends up with. -/
def sampleOptions : CreateOptions :=
  { AppSpecifier := "manifests"
    AppName := "argo-cd"
    SrcPath := "bootstrap/argo-cd"
    Namespace := "argocd"
    flags := some { formal :=
      [{ Name := "repo", Value := "https://github.com/owner/name" },
       { Name := "dest-server", Value := "https://10.0.0.1" },
       { Name := "dest-namespace", Value := "elsewhere" },
       { Name := "path", Value := "some/path" }] } }

/-- The bootstrap application `ParseBootstrap` makes of `sampleOptions`. -/
def sampleBootstrap : bootstrapApp :=
  { application :=
      { name := "argo-cd"
        path := "manifests"
        namespace_ := "argocd"
        argoApp :=
          { TypeMeta := { APIVersion := "argoproj.io/v1alpha1", Kind := "Application" }
            ObjectMeta := { Name := "argo-cd", Namespace := "argocd" }
            Spec :=
              { Source := { RepoURL := "https://github.com/owner/name"
                            Path := "bootstrap/argo-cd" }
                Destination := { Server := "https://kubernetes.default.svc"
                                 Namespace := "argocd" }
                SyncPolicy := some { Automated := some { SelfHeal := true, Prune := true } } } } }
    repoUrl := "https://github.com/owner/name" }

/-- A YAML marshaller that writes a few lines per object. -/
def sampleYaml : Yaml where
  MarshalRepositories := fun rs => .ok (String.join (rs.map fun r => "- url: " ++ r.URL ++ "\n"))
  MarshalKustomization := fun k =>
    .ok ("resources:\n" ++ String.join (k.Resources.map fun r => "- " ++ r ++ "\n"))
  MarshalNamespace := fun ns =>
    .ok ("kind: " ++ ns.TypeMeta.Kind ++ "\nname: " ++ ns.ObjectMeta.Name ++ "\n")

/-- The directory part of a path: the path up to its last slash. -/
def parentDir (path : String) : String :=
  String.mk ((path.data.reverse.dropWhile fun c => c ≠ '/').drop 1).reverse

/-- An operating system whose disk is a list of files, newest first. -/
def sampleOS : OS (List (String × String)) where
  TempDir := fun _dir pattern w => (.ok ("/tmp/" ++ pattern), w)
  RemoveAll := fun path w => w.filter fun f => parentDir f.1 ≠ path
  WriteFile := fun path data _perm w => (none, (path, data) :: w)
  Join := fun dir file => dir ++ "/" ++ file
  Dir := parentDir

/-- A kustomize build that needs a kustomization file in the directory it is run on and
renders two resources. -/
def sampleKrusty : Krusty (List (String × String)) (List String) where
  MakeDefaultOptions := {}
  Run := fun _opts _fs path w =>
    match w.lookup (path ++ "/kustomization.yaml") with
    | none => (.error (.errorf ("no kustomization file in " ++ path)), w)
    | some _ => (.ok ["kind: ConfigMap\n", "kind: Deployment\n"], w)
  AsYaml := fun res => .ok (yamlSeparator.intercalate res)

/-- A filesystem kept in memory as a list of files, newest first; its writes never fail. -/
def memFS : FS (List (String × String)) where
  Root := fun _ => "/"
  Join := fun root path => root ++ path
  Exists := fun s path => .ok (s.lookup path).isSome
  WriteFile := fun s path data => (none, (path, data) :: s)
  ReadFile := fun s path =>
    match s.lookup path with
    | some data => .ok data
    | none => .error (.errorf "file does not exist")

/-- The filesystem of the test `Write error`: it holds no file, every write fails with the
error `error`, its root is `/` and every join gives `/foo/bar`. -/
def mockFS : FS Unit where
  Root := fun _ => "/"
  Join := fun _ _ => "/foo/bar"
  Exists := fun _ _ => .ok false
  WriteFile := fun s _ _ => (some (.errorf "error"), s)
  ReadFile := fun _ _ => .error (.errorf "file does not exist")

/-- A manifest that is a single YAML document: no document separator begins inside it,
whatever follows it. -/
def SingleDocument (doc : String) : Prop :=
  ¬ yamlSeparator.data <:+: doc.data ++ yamlSeparator.data.dropLast

/-! ## The parser -/

/-- C1. An application that `Parse` builds from options with a non-empty specifier and a
non-empty name has `Base().Resources = [AppSpecifier]` and
`Overlay().Resources = ["../../base"]`, whatever the other options and the libraries are;
and `Parse` does build one whenever `ConstructApp` returns an application. -/
theorem Parse_base_overlay_resources (A : ArgoCDLib) (K : KustomizeTypes) (o : CreateOptions)
    (hs : o.AppSpecifier ≠ "") (hn : o.AppName ≠ "") :
    (∀ app, o.Parse A = .ok app →
      (app.Base K).Resources = [o.AppSpecifier] ∧ (app.Overlay K).Resources = ["../../base"]) ∧
    (∀ argoApp,
      A.ConstructApp "" o.AppName (getLabels o.AppName) [] o.argoAppOptions o.flags
        = .ok argoApp →
      ∃ app, o.Parse A = .ok app) := by
  constructor
  · intro app h
    simp only [CreateOptions.Parse, parseApplication, if_neg hs, if_neg hn] at h
    split at h
    · cases h
    · cases h
      exact ⟨rfl, rfl⟩
  · intro argoApp h
    simp only [CreateOptions.Parse, parseApplication, if_neg hs, if_neg hn, h]
    exact ⟨_, rfl⟩

/-- C1, on `sampleOptions`. -/
theorem Parse_base_overlay_resources_witness :
    sampleOptions.AppSpecifier ≠ "" ∧ sampleOptions.AppName ≠ "" ∧
    sampleOptions.Parse sampleArgoCD = .ok
      { sampleBootstrap.application with
        namespace_ := "argocd"
        argoApp :=
          { TypeMeta := { APIVersion := "argoproj.io/v1alpha1", Kind := "Application" }
            ObjectMeta := { Name := "argo-cd" }
            Spec :=
              { Source := { RepoURL := "https://github.com/owner/name", Path := "some/path" }
                Destination := { Server := "https://10.0.0.1", Namespace := "elsewhere" }
                SyncPolicy := some { Automated := some { SelfHeal := true, Prune := true } } } } } ∧
    ((∀ app, sampleOptions.Parse sampleArgoCD = .ok app →
      (app.Base kustomizeTypes).Resources = [sampleOptions.AppSpecifier] ∧
      (app.Overlay kustomizeTypes).Resources = ["../../base"]) ∧
    (∀ argoApp,
      sampleArgoCD.ConstructApp "" sampleOptions.AppName (getLabels sampleOptions.AppName) []
        sampleOptions.argoAppOptions sampleOptions.flags = .ok argoApp →
      ∃ app, sampleOptions.Parse sampleArgoCD = .ok app)) :=
  ⟨by decide, by decide, by rfl,
    Parse_base_overlay_resources sampleArgoCD kustomizeTypes sampleOptions
      (by decide) (by decide)⟩

/-- C4. With an empty `AppSpecifier`, `Parse` and `ParseBootstrap` both return no
application and fail with `ErrEmptyAppSpecifier`, whatever the other options are. -/
theorem Parse_empty_specifier (A : ArgoCDLib) (o : CreateOptions) (hs : o.AppSpecifier = "") :
    o.Parse A = .error .ErrEmptyAppSpecifier ∧
    o.ParseBootstrap A = .error .ErrEmptyAppSpecifier := by
  simp [CreateOptions.Parse, CreateOptions.ParseBootstrap, parseApplication, hs]

/-- C4, on `sampleOptions` with the specifier emptied. -/
theorem Parse_empty_specifier_witness :
    ({ sampleOptions with AppSpecifier := "" } : CreateOptions).AppSpecifier = "" ∧
    ({ sampleOptions with AppSpecifier := "" } : CreateOptions).Parse sampleArgoCD
      = .error .ErrEmptyAppSpecifier ∧
    ({ sampleOptions with AppSpecifier := "" } : CreateOptions).ParseBootstrap sampleArgoCD
      = .error .ErrEmptyAppSpecifier :=
  ⟨rfl, Parse_empty_specifier sampleArgoCD { sampleOptions with AppSpecifier := "" } rfl⟩

/-- C5, as stated, fails: with name and specifier both empty `Parse` fails with
`ErrEmptyAppSpecifier`, not with `ErrEmptyAppName`. -/
theorem Parse_both_empty_counterexample :
    ({ AppSpecifier := "", AppName := "" } : CreateOptions).AppName = "" ∧
    ({ AppSpecifier := "", AppName := "" } : CreateOptions).Parse sampleArgoCD
      = .error .ErrEmptyAppSpecifier ∧
    ({ AppSpecifier := "", AppName := "" } : CreateOptions).Parse sampleArgoCD
      ≠ .error .ErrEmptyAppName := by
  refine ⟨rfl, rfl, ?_⟩
  intro h
  cases h

/-- C5, amended. With an empty `AppName` and a non-empty `AppSpecifier`, `Parse` returns no
application and fails with `ErrEmptyAppName`. -/
theorem Parse_empty_name (A : ArgoCDLib) (o : CreateOptions) (hs : o.AppSpecifier ≠ "")
    (hn : o.AppName = "") : o.Parse A = .error .ErrEmptyAppName := by
  simp [CreateOptions.Parse, parseApplication, hs, hn]

/-- C5 amended, on `sampleOptions` with the name emptied. -/
theorem Parse_empty_name_witness :
    ({ sampleOptions with AppName := "" } : CreateOptions).AppSpecifier ≠ "" ∧
    ({ sampleOptions with AppName := "" } : CreateOptions).AppName = "" ∧
    ({ sampleOptions with AppName := "" } : CreateOptions).Parse sampleArgoCD
      = .error .ErrEmptyAppName :=
  ⟨by decide, rfl,
    Parse_empty_name sampleArgoCD { sampleOptions with AppName := "" } (by decide) rfl⟩

/-- C6. When `ParseBootstrap` succeeds, the application `ArgoCD()` returns has the
in-cluster destination server, the options' namespace as destination namespace and as
metadata namespace, and the options' `SrcPath` as source path, whatever `ConstructApp` had
put there. -/
theorem ParseBootstrap_destination (A : ArgoCDLib) (o : CreateOptions) (app : bootstrapApp)
    (h : o.ParseBootstrap A = .ok app) :
    app.ArgoCD.Spec.Destination.Server = "https://kubernetes.default.svc" ∧
    app.ArgoCD.Spec.Destination.Namespace = o.Namespace ∧
    app.ArgoCD.ObjectMeta.Namespace = o.Namespace ∧
    app.ArgoCD.Spec.Source.Path = o.SrcPath := by
  unfold CreateOptions.ParseBootstrap at h
  cases hp : parseApplication A o with
  | error err => rw [hp] at h; cases h
  | ok parsed =>
    have hns : parsed.namespace_ = o.Namespace := by
      unfold parseApplication at hp
      split at hp
      · cases hp
      · split at hp
        · cases hp
        · split at hp
          · cases hp
          · cases hp; rfl
    rw [hp] at h
    simp only at h
    cases hf : o.flags with
    | none => rw [hf] at h; cases h
    | some flags =>
      rw [hf] at h
      simp only at h
      cases hl : flags.Lookup "repo" with
      | none => rw [hl] at h; cases h
      | some flag =>
        rw [hl] at h
        cases h
        exact ⟨rfl, hns, hns, rfl⟩

/-- C6, on `sampleOptions`, whose flags had named another server, namespace and path. -/
theorem ParseBootstrap_destination_witness :
    sampleOptions.ParseBootstrap sampleArgoCD = .ok sampleBootstrap ∧
    sampleBootstrap.ArgoCD.Spec.Destination.Server = "https://kubernetes.default.svc" ∧
    sampleBootstrap.ArgoCD.Spec.Destination.Namespace = sampleOptions.Namespace ∧
    sampleBootstrap.ArgoCD.ObjectMeta.Namespace = sampleOptions.Namespace ∧
    sampleBootstrap.ArgoCD.Spec.Source.Path = sampleOptions.SrcPath :=
  ⟨by rfl, ParseBootstrap_destination sampleArgoCD sampleOptions sampleBootstrap (by rfl)⟩

/-- C9. `RootApp` is a projection: the descriptor has name `root`, the namespace of the
application, the two labels managed-by and name, the one finalizer, the source made of the
application's repository URL and the two arguments, the in-cluster destination in the
application's namespace and the automated self-healing, pruning sync policy; the receiver
is left as it was; and the descriptor is the same for any receiver that has the same
repository URL and namespace. -/
theorem RootApp_projection (A : ArgoCDLib) (S : Store) (app : bootstrapApp)
    (revision srcPath : String) :
    (app.RootApp A S revision srcPath).1.ObjectMeta.Name = "root" ∧
    (app.RootApp A S revision srcPath).1.ObjectMeta.Namespace = app.application.namespace_ ∧
    (app.RootApp A S revision srcPath).1.ObjectMeta.Labels =
      [("app.kubernetes.io/managed-by", S.ManagedBy), ("app.kubernetes.io/name", S.RootName)] ∧
    (app.RootApp A S revision srcPath).1.ObjectMeta.Finalizers =
      ["resources-finalizer.argocd.argoproj.io"] ∧
    (app.RootApp A S revision srcPath).1.Spec.Source =
      { RepoURL := app.repoUrl, Path := srcPath, TargetRevision := revision } ∧
    (app.RootApp A S revision srcPath).1.Spec.Destination =
      { Server := "https://kubernetes.default.svc", Namespace := app.application.namespace_ } ∧
    (app.RootApp A S revision srcPath).1.Spec.SyncPolicy =
      some { Automated := some { SelfHeal := true, Prune := true } } ∧
    (app.RootApp A S revision srcPath).2 = app ∧
    (∀ other : bootstrapApp, other.application.namespace_ = app.application.namespace_ →
      other.repoUrl = app.repoUrl →
      (other.RootApp A S revision srcPath).1 = (app.RootApp A S revision srcPath).1) := by
  refine ⟨rfl, rfl, rfl, rfl, rfl, rfl, rfl, rfl, ?_⟩
  intro other hns hrepo
  simp only [bootstrapApp.RootApp, hns, hrepo]

/-! ## The bootstrap kustomization -/

/-- The package `kustomizeTypes` keeps the fields `Kustomization()` sets. -/
theorem kustomizeTypes_keepsFields : kustomizeTypes.KeepsFields where
  postUnmarshalling := by
    intro k hb hg
    have hmap : ∀ l : List ConfigMapArgs,
        (∀ g ∈ l, g.GeneratorArgs.KvPairSources.EnvSource = "") →
        l.map (fun g =>
          if g.GeneratorArgs.KvPairSources.EnvSource = "" then g
          else { g with GeneratorArgs := { g.GeneratorArgs with
                  KvPairSources := { g.GeneratorArgs.KvPairSources with
                    EnvSources := g.GeneratorArgs.KvPairSources.EnvSources ++
                      [g.GeneratorArgs.KvPairSources.EnvSource]
                    EnvSource := "" } } }) = l := by
      intro l hl
      induction l with
      | nil => rfl
      | cons g l ih =>
        rw [List.map_cons, if_pos (hl g (List.mem_cons_self g l)),
          ih (fun g' hg' => hl g' (List.mem_cons_of_mem g hg'))]
    simp only [kustomizeTypes]
    by_cases h1 : k.TypeMeta.Kind = "" <;> by_cases h2 : k.TypeMeta.APIVersion = "" <;>
      simp only [h1, h2, if_true, if_false, hb, List.append_nil, hmap _ hg, and_self]
  preMarshalling := fun _ => ⟨rfl, rfl, rfl⟩

/-- An application made by `ParseBootstrap` has the options' namespace, which is also the
destination namespace of its argo-cd application. -/
theorem ParseBootstrap_namespace (A : ArgoCDLib) (o : CreateOptions) (app : bootstrapApp)
    (h : o.ParseBootstrap A = .ok app) :
    app.ArgoCD.Spec.Destination.Namespace = app.application.namespace_ := by
  unfold CreateOptions.ParseBootstrap at h
  cases hp : parseApplication A o with
  | error err => rw [hp] at h; cases h
  | ok parsed =>
    rw [hp] at h
    simp only at h
    cases hf : o.flags with
    | none => rw [hf] at h; cases h
    | some flags =>
      rw [hf] at h
      simp only at h
      cases hl : flags.Lookup "repo" with
      | none => rw [hl] at h; cases h
      | some flag =>
        rw [hl] at h
        cases h
        rfl

/-- C7. For a bootstrap application made by `ParseBootstrap` on which `Kustomization()`
succeeds, with a kustomize library whose fix-ups keep the fields set: the descriptor has
the resources of `Base()`, that is the application's path alone; exactly one config-map
generator, named `argocd-cm`, of behaviour `merge`, with the one literal
`repository.credentials=` followed by the output of `createCreds`; and as namespace the
destination namespace of `ArgoCD()`. -/
theorem Kustomization_descriptor (A : ArgoCDLib) (K : KustomizeTypes) (Y : Yaml)
    (o : CreateOptions) (app : bootstrapApp) (k : Kustomization) (hK : K.KeepsFields)
    (hp : o.ParseBootstrap A = .ok app) (hk : app.Kustomization K Y = .ok k) :
    ∃ credsYAML, createCreds Y app.repoUrl = .ok credsYAML ∧
      k.Resources = (app.application.Base K).Resources ∧
      k.Resources = [app.application.path] ∧
      (∃ g, k.ConfigMapGenerator = [g] ∧
        g.GeneratorArgs.Name = "argocd-cm" ∧
        g.GeneratorArgs.Behavior = "merge" ∧
        g.GeneratorArgs.KvPairSources.LiteralSources =
          ["repository.credentials=" ++ credsYAML]) ∧
      k.Namespace = app.ArgoCD.Spec.Destination.Namespace := by
  have hns := ParseBootstrap_namespace A o app hp
  unfold bootstrapApp.Kustomization at hk
  cases hc : createCreds Y app.repoUrl with
  | error err => rw [hc] at hk; cases hk
  | ok credsYAML =>
    rw [hc] at hk
    simp only at hk
    split at hk
    · cases hk
    · cases hk
      obtain ⟨hpre1, hpre2, hpre3⟩ := hK.preMarshalling
        (K.FixKustomizationPostUnmarshalling
          { Resources := [app.application.path]
            TypeMeta := { APIVersion := K.KustomizationVersion, Kind := K.KustomizationKind }
            ConfigMapGenerator :=
              [{ GeneratorArgs :=
                  { Name := "argocd-cm"
                    Behavior := BehaviorMerge
                    KvPairSources :=
                      { LiteralSources := ["repository.credentials=" ++ credsYAML] } } }]
            Namespace := app.application.namespace_ })
      obtain ⟨hpost1, hpost2, hpost3⟩ := hK.postUnmarshalling
        { Resources := [app.application.path]
          TypeMeta := { APIVersion := K.KustomizationVersion, Kind := K.KustomizationKind }
          ConfigMapGenerator :=
            [{ GeneratorArgs :=
                { Name := "argocd-cm"
                  Behavior := BehaviorMerge
                  KvPairSources :=
                    { LiteralSources := ["repository.credentials=" ++ credsYAML] } } }]
          Namespace := app.application.namespace_ } rfl
        (by intro g hg; rw [List.mem_singleton] at hg; subst hg; rfl)
      refine ⟨credsYAML, rfl, ?_, ?_, ?_, ?_⟩
      · rw [hpre1, hpost1]; rfl
      · rw [hpre1, hpost1]
      · rw [hpre3, hpost3]
        exact ⟨_, rfl, rfl, rfl, rfl⟩
      · rw [hpre2, hpost2, hns]

/-- C7, on `sampleBootstrap` with the kustomize package and `sampleYaml`. -/
theorem Kustomization_descriptor_witness :
    kustomizeTypes.KeepsFields ∧
    sampleOptions.ParseBootstrap sampleArgoCD = .ok sampleBootstrap ∧
    sampleBootstrap.Kustomization kustomizeTypes sampleYaml = .ok
      { TypeMeta := { APIVersion := "kustomize.config.k8s.io/v1beta1", Kind := "Kustomization" }
        Namespace := "argocd"
        Resources := ["manifests"]
        ConfigMapGenerator :=
          [{ GeneratorArgs :=
              { Name := "argocd-cm"
                Behavior := "merge"
                KvPairSources :=
                  { LiteralSources :=
                      ["repository.credentials=- url: https://github.com/owner/name\n"] } } }] } ∧
    ∃ credsYAML, createCreds sampleYaml sampleBootstrap.repoUrl = .ok credsYAML ∧
      ["manifests"] = (sampleBootstrap.application.Base kustomizeTypes).Resources ∧
      ["manifests"] = [sampleBootstrap.application.path] ∧
      (∃ g : ConfigMapArgs,
        [({ GeneratorArgs :=
              { Name := "argocd-cm"
                Behavior := "merge"
                KvPairSources :=
                  { LiteralSources :=
                      ["repository.credentials=- url: https://github.com/owner/name\n"] } } } :
            ConfigMapArgs)] = [g] ∧
        g.GeneratorArgs.Name = "argocd-cm" ∧
        g.GeneratorArgs.Behavior = "merge" ∧
        g.GeneratorArgs.KvPairSources.LiteralSources =
          ["repository.credentials=" ++ credsYAML]) ∧
      "argocd" = sampleBootstrap.ArgoCD.Spec.Destination.Namespace :=
  ⟨kustomizeTypes_keepsFields, by rfl, by rfl,
    Kustomization_descriptor sampleArgoCD kustomizeTypes sampleYaml sampleOptions
      sampleBootstrap _ kustomizeTypes_keepsFields (by rfl) (by rfl)⟩

/-! ## The bootstrap manifests -/

/-- Passing over the rest of a matched separator. -/
theorem splitAux_skip (sep cs b doc : List Char) :
    splitAux sep cs.length (cs ++ b) doc = splitAux sep 0 b doc := by
  induction cs with
  | nil => rfl
  | cons c cs ih => simpa [splitAux] using ih

/-- No separator is matched at a position from which it would have to begin inside a
text it does not occur in. -/
theorem not_isPrefixOf_of_not_infix (sep a b : List Char) (x : Char) (hsep : sep ≠ [])
    (h : ¬ sep <:+: (x :: a) ++ sep.dropLast) :
    sep.isPrefixOf ((x :: a) ++ sep ++ b) = false := by
  rw [Bool.eq_false_iff]
  intro hp
  apply h
  have hp : sep <+: (x :: a) ++ sep ++ b := List.isPrefixOf_iff_prefix.mp hp
  have hq : (x :: a) ++ sep.dropLast <+: (x :: a) ++ sep ++ b := by
    rw [List.append_assoc]
    apply (List.prefix_append_right_inj _).mpr
    exact (List.dropLast_prefix sep).trans (List.prefix_append _ _)
  have hlen : sep.length ≤ ((x :: a) ++ sep.dropLast).length := by
    have := List.length_pos.mpr hsep
    simp only [List.length_append, List.length_cons, List.length_dropLast]
    omega
  exact (List.prefix_of_prefix_length_le hp hq hlen).isInfix

/-- Splitting `a ++ sep ++ b`, where no separator begins inside `a`, ends the current
document with `a` and goes on with `b`. -/
theorem splitAux_append_sep (sep a b doc : List Char) (hsep : sep ≠ [])
    (h : ¬ sep <:+: a ++ sep.dropLast) :
    splitAux sep 0 (a ++ sep ++ b) doc = (doc.reverse ++ a) :: splitAux sep 0 b [] := by
  induction a generalizing doc with
  | nil =>
    obtain ⟨c, cs, rfl⟩ := List.exists_cons_of_ne_nil hsep
    have hp : (c :: cs).isPrefixOf (c :: (cs ++ b)) = true := by
      rw [List.isPrefixOf_iff_prefix]
      exact List.prefix_append (c :: cs) b
    have e : [] ++ (c :: cs) ++ b = c :: (cs ++ b) := rfl
    rw [e, splitAux, if_pos hp, List.length_cons, Nat.add_sub_cancel, splitAux_skip,
      List.append_nil]
  | cons x a ih =>
    have hnp := not_isPrefixOf_of_not_infix sep a b x hsep h
    have h2 : ¬ sep <:+: a ++ sep.dropLast := by
      intro hi
      apply h
      obtain ⟨s, t, hst⟩ := hi
      exact ⟨x :: s, t, by simp [← hst]⟩
    simp only [List.cons_append, List.append_assoc] at hnp ⊢
    rw [splitAux, if_neg (by simp [hnp])]
    have := ih (x :: doc) h2
    simp only [List.append_assoc] at this
    rw [this]
    simp

/-- Joining two manifests puts the separator between them. -/
theorem JoinManifests_pair (ns build : String) :
    JoinManifests [ns, build] = ns ++ yamlSeparator ++ build := by
  simp [JoinManifests, String.intercalate, String.intercalate.go]

/-- The documents of a single document joined with a stream are that document followed by
the documents of the stream. -/
theorem splitDocuments_JoinManifests (ns build : String) (h : SingleDocument ns) :
    splitDocuments (JoinManifests [ns, build]) = ns :: splitDocuments build := by
  rw [JoinManifests_pair, splitDocuments, splitDocuments]
  simp only [String.data_append]
  rw [splitAux_append_sep _ _ _ _ (by decide) h]
  simp

/-- C8. When `GenerateManifests` succeeds, with a YAML library that marshals the Namespace
object to a single document, the bytes returned are the join of that document, for the
object `apiVersion: v1, kind: Namespace, metadata.name: <the application's namespace>`,
and of the output of the kustomize build of the temporary directory, in this order: split
on the document separator, they are the Namespace document followed by the documents of
the build output in the build's order. -/
theorem GenerateManifests_namespace_first {σ ρ : Type} (K : KustomizeTypes) (Y : Yaml)
    (B : Krusty σ ρ) (O : OS σ) (app : bootstrapApp) (w w' : σ) (out : String)
    (hY : ∀ doc,
      Y.MarshalNamespace
        { TypeMeta := { APIVersion := "v1", Kind := "Namespace" }
          ObjectMeta := { Name := app.application.namespace_ } } = .ok doc →
      SingleDocument doc)
    (h : app.GenerateManifests K Y B O w = (.ok out, w')) :
    ∃ ns td res build w1 w2,
      Y.MarshalNamespace
        { TypeMeta := { APIVersion := "v1", Kind := "Namespace" }
          ObjectMeta := { Name := app.application.namespace_ } } = .ok ns ∧
      B.Run { B.MakeDefaultOptions with DoLegacyResourceSort := true } .onDisk
        (O.Dir (O.Join td "kustomization.yaml")) w1 = (.ok res, w2) ∧
      B.AsYaml res = .ok build ∧
      out = JoinManifests [ns, build] ∧
      out = ns ++ yamlSeparator ++ build ∧
      splitDocuments out = ns :: splitDocuments build := by
  unfold bootstrapApp.GenerateManifests at h
  split at h
  · cases h
  · rename_i td w0 htd
    simp only [Prod.mk.injEq] at h
    obtain ⟨h, -⟩ := h
    unfold bootstrapApp.generateManifestsIn at h
    simp only at h
    split at h
    · cases h
    · split at h
      · cases h
      · split at h
        · cases h
        · rename_i w1 hwrite
          split at h
          · cases h
          · rename_i res w2 hrun
            split at h
            · cases h
            · rename_i build hbuild
              split at h
              · cases h
              · rename_i ns hns
                cases h
                have hm : Y.MarshalNamespace
                    { TypeMeta := { APIVersion := "v1", Kind := "Namespace" }
                      ObjectMeta := { Name := app.application.namespace_ } } = .ok ns := by
                  unfold createNamespace at hns
                  simp only at hns
                  split at hns
                  · simp [Die] at hns
                  · rename_i data hdata
                    simp only [Die] at hns
                    cases hns
                    exact hdata
                exact ⟨ns, td, res, build, w1, w2, hm, hrun, hbuild, rfl,
                  JoinManifests_pair ns build,
                  splitDocuments_JoinManifests ns build (hY _ hm)⟩

/-- C8, on `sampleBootstrap` with the sample libraries and an empty disk. -/
theorem GenerateManifests_namespace_first_witness :
    (∀ doc,
      sampleYaml.MarshalNamespace
        { TypeMeta := { APIVersion := "v1", Kind := "Namespace" }
          ObjectMeta := { Name := sampleBootstrap.application.namespace_ } } = .ok doc →
      SingleDocument doc) ∧
    sampleBootstrap.GenerateManifests kustomizeTypes sampleYaml sampleKrusty sampleOS [] =
      (.ok "kind: Namespace\nname: argocd\n\n---\nkind: ConfigMap\n\n---\nkind: Deployment\n",
        []) ∧
    ∃ ns td res build w1 w2,
      sampleYaml.MarshalNamespace
        { TypeMeta := { APIVersion := "v1", Kind := "Namespace" }
          ObjectMeta := { Name := sampleBootstrap.application.namespace_ } } = .ok ns ∧
      sampleKrusty.Run { sampleKrusty.MakeDefaultOptions with DoLegacyResourceSort := true }
        .onDisk (sampleOS.Dir (sampleOS.Join td "kustomization.yaml")) w1 = (.ok res, w2) ∧
      sampleKrusty.AsYaml res = .ok build ∧
      "kind: Namespace\nname: argocd\n\n---\nkind: ConfigMap\n\n---\nkind: Deployment\n" =
        JoinManifests [ns, build] ∧
      "kind: Namespace\nname: argocd\n\n---\nkind: ConfigMap\n\n---\nkind: Deployment\n" =
        ns ++ yamlSeparator ++ build ∧
      splitDocuments
          "kind: Namespace\nname: argocd\n\n---\nkind: ConfigMap\n\n---\nkind: Deployment\n" =
        ns :: splitDocuments build :=
  have hY : ∀ doc,
      sampleYaml.MarshalNamespace
        { TypeMeta := { APIVersion := "v1", Kind := "Namespace" }
          ObjectMeta := { Name := sampleBootstrap.application.namespace_ } } = .ok doc →
      SingleDocument doc := by
    intro doc h
    cases h
    unfold SingleDocument
    decide
  ⟨hY, by rfl,
    GenerateManifests_namespace_first kustomizeTypes sampleYaml sampleKrusty sampleOS
      sampleBootstrap [] [] _ hY (by rfl)⟩

/-! ## The `config.json` codec reads back what it writes -/

namespace Json

theorem hexVal_hexDigit (d : Nat) (h : d < 16) : hexVal (hexDigit d) = some d := by
  interval_cases d <;> rfl

theorem hex4_value (n : Nat) (h : n < 65536) :
    (((n / 4096 % 16) * 16 + n / 256 % 16) * 16 + n / 16 % 16) * 16 + n % 16 = n := by
  omega

theorem needsUnicodeEscape_lt (c : Char) (h : needsUnicodeEscape c = true) :
    c.toNat < 0x2030 := by
  simp only [needsUnicodeEscape, Bool.or_eq_true, decide_eq_true_eq, beq_iff_eq] at h
  rcases h with ((((h | h) | h) | h) | h) | h
  · omega
  · subst h; decide
  · subst h; decide
  · subst h; decide
  · omega
  · omega

theorem scanString_quote (rest : List Char) : scanString ('"' :: rest) = some ([], rest) := by
  rw [scanString.eq_def]; simp

theorem scanString_simple (e d : Char) (rest : List Char) (ps : List Piece) (r : List Char)
    (he : e ≠ 'u') (hd : simpleEscape e = some d) (h : scanString rest = some (ps, r)) :
    scanString ('\\' :: e :: rest) = some (.char d :: ps, r) := by
  rw [scanString.eq_def]
  simp [he, hd, h]

theorem scanString_unicode (h3 h2 h1 h0 : Char) (x3 x2 x1 x0 : Nat) (rest : List Char)
    (ps : List Piece) (r : List Char)
    (e3 : hexVal h3 = some x3) (e2 : hexVal h2 = some x2) (e1 : hexVal h1 = some x1)
    (e0 : hexVal h0 = some x0) (h : scanString rest = some (ps, r)) :
    scanString ('\\' :: 'u' :: h3 :: h2 :: h1 :: h0 :: rest) =
      some (.unit (((x3 * 16 + x2) * 16 + x1) * 16 + x0) :: ps, r) := by
  rw [scanString.eq_def]
  simp [e3, e2, e1, e0, h]

theorem scanString_plain (c : Char) (rest : List Char) (ps : List Piece) (r : List Char)
    (hq : c ≠ '"') (hb : c ≠ '\\') (hc : ¬ c.toNat < 0x20)
    (h : scanString rest = some (ps, r)) :
    scanString (c :: rest) = some (.char c :: ps, r) := by
  rw [scanString.eq_def]
  simp [hq, hb, hc, h]

theorem scanString_escapeChar (c : Char) (tail : List Char) (ps : List Piece) (r : List Char)
    (h : scanString tail = some (ps, r)) :
    scanString (escapeChar c ++ tail) = some (pieceOfChar c :: ps, r) := by
  unfold escapeChar pieceOfChar
  by_cases h1 : c = '"'
  · subst h1; exact scanString_simple _ _ _ _ _ (by decide) (by decide) h
  by_cases h2 : c = '\\'
  · subst h2; exact scanString_simple _ _ _ _ _ (by decide) (by decide) h
  by_cases h3 : c = '\n'
  · subst h3; exact scanString_simple _ _ _ _ _ (by decide) (by decide) h
  by_cases h4 : c = '\r'
  · subst h4; exact scanString_simple _ _ _ _ _ (by decide) (by decide) h
  by_cases h5 : c = '\t'
  · subst h5; exact scanString_simple _ _ _ _ _ (by decide) (by decide) h
  simp only [h1, h2, h3, h4, h5, if_false, or_self]
  by_cases h6 : needsUnicodeEscape c = true
  · have hlt := needsUnicodeEscape_lt c h6
    simp only [h6, if_true, hex4, List.cons_append, List.nil_append]
    have key := scanString_unicode _ _ _ _ _ _ _ _ tail ps r
      (hexVal_hexDigit (c.toNat / 4096 % 16) (Nat.mod_lt _ (by decide)))
      (hexVal_hexDigit (c.toNat / 256 % 16) (Nat.mod_lt _ (by decide)))
      (hexVal_hexDigit (c.toNat / 16 % 16) (Nat.mod_lt _ (by decide)))
      (hexVal_hexDigit (c.toNat % 16) (Nat.mod_lt _ (by decide))) h
    rw [hex4_value _ (by omega)] at key
    exact key
  · have h7 : ¬ c.toNat < 32 := by
      intro hc
      apply h6
      simp [needsUnicodeEscape, hc]
    simp only [h6, if_false, List.cons_append, List.nil_append]
    exact scanString_plain _ _ _ _ h1 h2 h7 h

theorem scanString_escapeRune (x : Option Char) (tail : List Char) (ps : List Piece)
    (r : List Char) (h : scanString tail = some (ps, r)) :
    scanString (escapeRune x ++ tail) = some (pieceOf x :: ps, r) := by
  cases x with
  | some c => exact scanString_escapeChar c tail ps r h
  | none =>
    exact scanString_unicode 'f' 'f' 'f' 'd' 15 15 15 13 tail ps r (by decide) (by decide)
      (by decide) (by decide) h

theorem scanString_escape (rs : List (Option Char)) (tail : List Char) :
    scanString (escape rs ++ '"' :: tail) = some (rs.map pieceOf, tail) := by
  induction rs with
  | nil => exact scanString_quote tail
  | cons x rs ih =>
    simp only [escape, List.append_assoc, List.map_cons]
    exact scanString_escapeRune x _ _ _ ih

theorem unitChar_toNat (c : Char) : unitChar c.toNat = c := by
  have hv := c.valid
  have hs : isHighSurrogate c.toNat = false ∧ isLowSurrogate c.toNat = false := by
    simp only [isHighSurrogate, isLowSurrogate, Bool.and_eq_false_imp, decide_eq_true_eq,
      decide_eq_false_iff_not, Char.toNat]
    rcases hv with hv | hv
    · constructor <;> intro _ <;> omega
    · constructor <;> intro _ <;> omega
  simp [unitChar, hs.1, hs.2, Char.ofNat_toNat]

theorem combine_unit (c : Char) (rest : List Piece) :
    combine (.unit c.toNat :: rest) = c :: combine rest := by
  have hv := c.valid
  have hs : isHighSurrogate c.toNat = false := by
    simp only [isHighSurrogate, Bool.and_eq_false_imp, decide_eq_true_eq,
      decide_eq_false_iff_not, Char.toNat]
    rcases hv with hv | hv <;> intro _ <;> omega
  cases rest with
  | nil => simp [combine, unitChar_toNat]
  | cons p rest =>
    cases p with
    | char d => simp [combine, unitChar_toNat]
    | unit lo => simp [combine, hs, unitChar_toNat]

theorem pieceOf_cases (x : Option Char) :
    pieceOf x = .char (Utf8.replacement x) ∨ pieceOf x = .unit (Utf8.replacement x).toNat := by
  cases x with
  | none => exact Or.inr rfl
  | some c =>
    show pieceOfChar c = .char c ∨ pieceOfChar c = .unit c.toNat
    unfold pieceOfChar
    split
    · exact Or.inl rfl
    · split
      · exact Or.inr rfl
      · exact Or.inl rfl

theorem combine_map_pieceOf (rs : List (Option Char)) :
    combine (rs.map pieceOf) = rs.map Utf8.replacement := by
  induction rs with
  | nil => rfl
  | cons x rs ih =>
    rw [List.map_cons, List.map_cons]
    rcases pieceOf_cases x with h | h
    · rw [h, combine, ih]
    · rw [h, combine_unit, ih]

theorem parseString_quote (rs : List (Option Char)) (tail : List Char) :
    parseString (quote rs ++ tail) = some (String.mk (rs.map Utf8.replacement), tail) := by
  simp only [quote, List.cons_append, List.append_assoc, List.nil_append, parseString,
    if_true, scanString_escape, combine_map_pieceOf]

theorem skipWs_cons (c : Char) (cs : List Char)
    (h : ¬ (c = ' ' ∨ c = '\t' ∨ c = '\n' ∨ c = '\r')) : skipWs (c :: cs) = c :: cs := by
  rw [skipWs, if_neg h]

theorem skipWs_quote (rs : List (Option Char)) (tail : List Char) :
    skipWs (quote rs ++ tail) = quote rs ++ tail := by
  rw [quote, List.cons_append, skipWs_cons _ _ (by decide)]

theorem parseMembers_member (fuel : Nat) (k : String) (v : Bytes) (d : Char)
    (rest : List Char) (hd : ¬ (d = ' ' ∨ d = '\t' ∨ d = '\n' ∨ d = '\r')) :
    parseMembers (fuel + 1) (encodeMember (k, v) ++ d :: rest) =
      if d = ',' then
        match parseMembers fuel rest with
        | some (kvs, r) => some (readBack (k, v) :: kvs, r)
        | none => none
      else if d = '}' then some ([readBack (k, v)], rest)
      else none := by
  have hk : String.mk ((k.data.map some).map Utf8.replacement) = k := by
    rw [List.map_map]
    have : (Utf8.replacement ∘ some) = id := rfl
    rw [this, List.map_id]
  rw [parseMembers, encodeMember, List.append_assoc, skipWs_quote, parseString_quote, hk]
  simp only [List.cons_append]
  rw [skipWs_cons _ _ (by decide)]
  simp only [if_true]
  rw [skipWs_quote, parseString_quote]
  simp only []
  rw [skipWs_cons _ _ hd]
  rfl

theorem parseMembers_encodeMembers (kvs : List (String × Bytes)) (hne : kvs ≠ [])
    (fuel : Nat) (hfuel : kvs.length ≤ fuel) (tail : List Char) :
    parseMembers fuel (encodeMembers kvs ++ '}' :: tail) = some (kvs.map readBack, tail) := by
  induction kvs generalizing fuel with
  | nil => exact absurd rfl hne
  | cons kv kvs ih =>
    obtain ⟨fuel, rfl⟩ : ∃ n, fuel = n + 1 := ⟨fuel - 1, by simp at hfuel; omega⟩
    obtain ⟨k, v⟩ := kv
    cases kvs with
    | nil =>
      rw [encodeMembers, parseMembers_member _ _ _ _ _ (by decide)]
      simp
    | cons kv2 kvs =>
      have ih2 := ih (by simp) fuel (by simp at hfuel ⊢; omega)
      have henc : encodeMembers ((k, v) :: kv2 :: kvs) =
          encodeMember (k, v) ++ ',' :: encodeMembers (kv2 :: kvs) := rfl
      rw [henc, List.append_assoc, List.cons_append,
        parseMembers_member _ _ _ _ _ (by decide), ih2]
      simp

theorem length_le_encodeMembers (kvs : List (String × Bytes)) :
    kvs.length ≤ (encodeMembers kvs).length := by
  induction kvs with
  | nil => simp
  | cons kv kvs ih =>
    cases kvs with
    | nil => simp [encodeMembers, encodeMember, quote]
    | cons kv2 kvs =>
      simp only [encodeMembers, List.length_append, List.length_cons] at ih ⊢
      omega

theorem parseObject_encodeObject (kvs : List (String × Bytes)) :
    parseObject (encodeObject kvs) = some (kvs.map readBack) := by
  cases kvs with
  | nil => simp [encodeObject, encodeMembers, parseObject, skipWs]
  | cons kv kvs =>
    have hlen := length_le_encodeMembers (kv :: kvs)
    have hhead : ∃ rest, encodeMembers (kv :: kvs) = '"' :: rest := by
      cases kvs with
      | nil => exact ⟨_, by simp [encodeMembers, encodeMember, quote]; rfl⟩
      | cons kv2 kvs => exact ⟨_, by simp [encodeMembers, encodeMember, quote]; rfl⟩
    obtain ⟨rest, hrest⟩ := hhead
    have hpm := parseMembers_encodeMembers (kv :: kvs) (by simp)
      ((encodeMembers (kv :: kvs) ++ ['}']).length) (by simp at hlen ⊢; omega) []
    simp only [encodeObject, parseObject]
    rw [hrest] at hpm ⊢
    rw [skipWs_cons _ _ (by decide)]
    simp only [show ¬ (Char.ofNat 123 = Char.ofNat 34) by decide, if_true, if_false,
      List.cons_append]
    rw [skipWs_cons _ _ (by decide)]
    simp only [show ¬ (Char.ofNat 34 = Char.ofNat 125) by decide, if_false]
    rw [List.cons_append] at hpm
    rw [hpm]
    simp [skipWs]

end Json

namespace Utf8

theorem byte_val (n : Nat) : (byte n).val = n % 256 := rfl

theorem char_range (c : Char) : c.toNat < 0xD800 ∨ (0xDFFF < c.toNat ∧ c.toNat < 0x110000) :=
  c.valid

theorem DecodeRune_EncodeRune (c : Char) (rest : Bytes) :
    DecodeRune (EncodeRune c ++ rest) = some (c, (EncodeRune c).length) := by
  have hv := char_range c
  unfold EncodeRune
  by_cases h1 : c.toNat < 0x80
  · simp only [h1, if_true, List.cons_append, List.nil_append, DecodeRune, byte_val]
    rw [if_pos (by omega), Nat.mod_eq_of_lt (by omega), Char.ofNat_toNat]
    rfl
  by_cases h2 : c.toNat < 0x800
  · simp only [h1, h2, if_true, if_false, List.cons_append, List.nil_append, DecodeRune,
      byte_val, inRange]
    rw [if_neg (by omega), if_pos (by omega), if_pos (by simp; omega)]
    have e2 : ((192 + c.toNat / 64) % 256 - 192) * 64 + ((128 + c.toNat % 64) % 256 - 128)
        = c.toNat := by omega
    rw [e2, Char.ofNat_toNat]
    rfl
  by_cases h3 : c.toNat < 0x10000
  · simp only [h1, h2, h3, if_true, if_false, List.cons_append, List.nil_append, DecodeRune,
      byte_val, inRange]
    rw [if_neg (by omega), if_neg (by omega), if_pos (by omega), if_pos (by
      simp only [Bool.and_eq_true, decide_eq_true_eq]
      split <;> split <;> omega)]
    have e2 : ((224 + c.toNat / 4096) % 256 - 224) * 4096 +
        ((128 + c.toNat / 64 % 64) % 256 - 128) * 64 + ((128 + c.toNat % 64) % 256 - 128)
        = c.toNat := by omega
    rw [e2, Char.ofNat_toNat]
    rfl
  · simp only [h1, h2, h3, if_false, List.cons_append, List.nil_append, DecodeRune,
      byte_val, inRange]
    rw [if_neg (by omega), if_neg (by omega), if_neg (by omega), if_pos (by omega), if_pos (by
      simp only [Bool.and_eq_true, decide_eq_true_eq]
      split <;> split <;> omega)]
    have e2 : ((240 + c.toNat / 262144) % 256 - 240) * 262144 +
        ((128 + c.toNat / 4096 % 64) % 256 - 128) * 4096 +
        ((128 + c.toNat / 64 % 64) % 256 - 128) * 64 + ((128 + c.toNat % 64) % 256 - 128)
        = c.toNat := by omega
    rw [e2, Char.ofNat_toNat]
    rfl

theorem runesAux_skip (bs rest : Bytes) :
    runesAux bs.length (bs ++ rest) = runesAux 0 rest := by
  induction bs with
  | nil => rfl
  | cons b bs ih => simpa [runesAux] using ih

theorem EncodeRune_ne_nil (c : Char) : ∃ b bs, EncodeRune c = b :: bs := by
  unfold EncodeRune
  split
  · exact ⟨_, _, rfl⟩
  · split
    · exact ⟨_, _, rfl⟩
    · split
      · exact ⟨_, _, rfl⟩
      · exact ⟨_, _, rfl⟩

theorem runes_encode (cs : List Char) : runes (encode cs) = cs.map some := by
  unfold runes
  induction cs with
  | nil => rfl
  | cons c cs ih =>
    have hd := DecodeRune_EncodeRune c (encode cs)
    obtain ⟨b, bs, hb⟩ := EncodeRune_ne_nil c
    rw [encode, List.map_cons]
    rw [hb] at hd ⊢
    rw [List.cons_append] at hd ⊢
    rw [runesAux, hd]
    simp only [List.length_cons, Nat.add_sub_cancel]
    rw [runesAux_skip, ih]

theorem encode_text (s : Bytes) (h : Valid s) : encode (text s).data = s := by
  obtain ⟨cs, rfl⟩ := h
  simp only [text, runes_encode, List.map_map]
  have : (replacement ∘ some) = id := rfl
  rw [this, List.map_id]

end Utf8

theorem Config.ofFields_fields (c : Config) (hc : c.ValidUTF8) :
    (((c.fields.filter fun kv => kv.2 ≠ []).map Json.readBack).foldl
      (fun c kv => c.setField kv.1 kv.2) {}) = c := by
  obtain ⟨a, u, n, s⟩ := c
  obtain ⟨va, vu, vn, vs⟩ := hc
  have ea := Utf8.encode_text a va
  have eu := Utf8.encode_text u vu
  have en := Utf8.encode_text n vn
  have es := Utf8.encode_text s vs
  by_cases ha : a = [] <;> by_cases hu : u = [] <;> by_cases hn : n = [] <;>
    by_cases hs : s = [] <;>
    simp [Config.fields, List.filter, Config.setField, Json.readBack, ha, hu, hn, hs, ea, eu,
      en, es]

theorem jsonUnmarshalConfig_jsonMarshalConfig (c : Config) (hc : c.ValidUTF8) :
    jsonUnmarshalConfig (jsonMarshalConfig c) = some c := by
  simp only [jsonUnmarshalConfig, jsonMarshalConfig, Json.parseObject_encodeObject,
    Config.ofFields_fields c hc]

/-! ## The file helpers -/

/-- The in-memory filesystem is lawful. -/
theorem memFS_lawful : memFS.Lawful where
  read_write := by
    intro s path data s' h
    simp only [memFS, Prod.mk.injEq, true_and] at h
    subst h
    simp [memFS, List.lookup]
  exists_write := by
    intro s path data s' h
    simp only [memFS, Prod.mk.injEq, true_and] at h
    subst h
    simp [memFS, List.lookup]
  read_absent := by
    intro s path h
    simp only [memFS, Except.ok.injEq] at h
    cases hl : List.lookup path s with
    | some data => rw [hl] at h; cases h
    | none => exact ⟨.errorf "file does not exist", by simp [memFS, hl]⟩

/-- The filesystem of the test `Write error` is lawful: nothing is ever written. -/
theorem mockFS_lawful : mockFS.Lawful where
  read_write := by intro s path data s' h; simp [mockFS] at h
  exists_write := by intro s path data s' h; simp [mockFS] at h
  read_absent := by intro s path _; exact ⟨_, rfl⟩

/-- C2, as stated, fails: on the filesystem of the test `Write error` no file exists at the
path, yet the call returns an error and not `(false, nil)`. -/
theorem writeApplicationFile_write_error_counterexample :
    mockFS.Exists () "foo/bar" = .ok false ∧
    writeApplicationFile mockFS "foo/bar" "test" "data2" () =
      (.error (.errorf "failed to create 'test' file at '/foo/bar': error"), ()) ∧
    (writeApplicationFile mockFS "foo/bar" "test" "data2" ()).1 ≠ .ok false := by
  refine ⟨rfl, by rfl, ?_⟩
  intro h
  cases h

/-- C2, amended. On a lawful filesystem, for every path, label and data: if a file already
exists at the path the call returns `(true, nil)` and leaves the filesystem as it is; if
none exists and the write succeeds the call returns `(false, nil)` and the file then holds
exactly the data; if none exists and the write fails the call returns the error
`failed to create '<label>' file at '<resolved path>': <cause>`. Whenever a call has
returned without error, the same call again returns `(true, nil)` and leaves the
filesystem as the first call left it. -/
theorem writeApplicationFile_exists_or_write {σ : Type} (F : FS σ) (hF : F.Lawful)
    (path name data : String) (s : σ) :
    (F.Exists s path = .ok true →
      writeApplicationFile F path name data s = (.ok true, s)) ∧
    (∀ s', F.Exists s path = .ok false → F.WriteFile s path data = (none, s') →
      writeApplicationFile F path name data s = (.ok false, s') ∧
      F.ReadFile s' path = .ok data) ∧
    (∀ err s', F.Exists s path = .ok false → F.WriteFile s path data = (some err, s') →
      writeApplicationFile F path name data s =
        (.error (.errorf ("failed to create '" ++ name ++ "' file at '" ++
          F.Join (F.Root s) path ++ "': " ++ err.message)), s')) ∧
    (∀ alreadyExisted s', writeApplicationFile F path name data s = (.ok alreadyExisted, s') →
      writeApplicationFile F path name data s' = (.ok true, s')) := by
  have hexists : ∀ t, F.Exists t path = .ok true →
      writeApplicationFile F path name data t = (.ok true, t) := by
    intro t h
    simp [writeApplicationFile, FS.CheckExistsOrWrite, h]
  refine ⟨hexists s, ?_, ?_, ?_⟩
  · intro s' he hw
    exact ⟨by simp [writeApplicationFile, FS.CheckExistsOrWrite, he, hw],
      hF.read_write s path data s' hw⟩
  · intro err s' he hw
    simp [writeApplicationFile, FS.CheckExistsOrWrite, he, hw]
  · intro alreadyExisted s' h
    apply hexists
    cases he : F.Exists s path with
    | error err => simp [writeApplicationFile, FS.CheckExistsOrWrite, he] at h
    | ok b =>
      cases b with
      | true =>
        simp only [writeApplicationFile, FS.CheckExistsOrWrite, he, Prod.mk.injEq] at h
        rw [← h.2]
        exact he
      | false =>
        cases hw : F.WriteFile s path data with
        | mk res t =>
          cases res with
          | some err => simp [writeApplicationFile, FS.CheckExistsOrWrite, he, hw] at h
          | none =>
            simp only [writeApplicationFile, FS.CheckExistsOrWrite, he, hw, Prod.mk.injEq] at h
            rw [← h.2]
            exact hF.exists_write s path data t hw

/-- C2 amended, on the in-memory filesystem with the arguments of the test `On Root`. -/
theorem writeApplicationFile_exists_or_write_witness :
    memFS.Lawful ∧
    writeApplicationFile memFS "foo/bar" "test" "data" [] = (.ok false, [("foo/bar", "data")]) ∧
    ((memFS.Exists [] "foo/bar" = .ok true →
      writeApplicationFile memFS "foo/bar" "test" "data" [] = (.ok true, [])) ∧
    (∀ s', memFS.Exists [] "foo/bar" = .ok false →
      memFS.WriteFile [] "foo/bar" "data" = (none, s') →
      writeApplicationFile memFS "foo/bar" "test" "data" [] = (.ok false, s') ∧
      memFS.ReadFile s' "foo/bar" = .ok "data") ∧
    (∀ err s', memFS.Exists [] "foo/bar" = .ok false →
      memFS.WriteFile [] "foo/bar" "data" = (some err, s') →
      writeApplicationFile memFS "foo/bar" "test" "data" [] =
        (.error (.errorf ("failed to create '" ++ "test" ++ "' file at '" ++
          memFS.Join (memFS.Root []) "foo/bar" ++ "': " ++ err.message)), s')) ∧
    (∀ alreadyExisted s',
      writeApplicationFile memFS "foo/bar" "test" "data" [] = (.ok alreadyExisted, s') →
      writeApplicationFile memFS "foo/bar" "test" "data" s' = (.ok true, s'))) :=
  ⟨memFS_lawful, by rfl,
    writeApplicationFile_exists_or_write memFS memFS_lawful "foo/bar" "test" "data" []⟩

/-- C3, as stated, fails: the `Config` whose name is the single byte `0xff`, which is not
valid UTF-8, is written as `\ufffd` and read back from the empty in-memory filesystem as
the three bytes of U+FFFD, not as the `Config` written. -/
theorem getConfigFileFromPath_invalid_utf8_counterexample :
    jsonMarshalConfig { AppName := [0xff] } = "\x7b\"appName\":\"\\ufffd\"\x7d" ∧
    getConfigFileFromPath memFS "test"
      (memFS.WriteFile [] ("test" ++ "/config.json")
        (jsonMarshalConfig { AppName := [0xff] })).2 = .ok { AppName := [0xef, 0xbf, 0xbd] } ∧
    getConfigFileFromPath memFS "test"
      (memFS.WriteFile [] ("test" ++ "/config.json")
        (jsonMarshalConfig { AppName := [0xff] })).2 ≠ .ok { AppName := [0xff] } := by
  refine ⟨by rfl, by rfl, ?_⟩
  intro h
  have h2 : getConfigFileFromPath memFS "test"
      (memFS.WriteFile [] ("test" ++ "/config.json")
        (jsonMarshalConfig { AppName := [0xff] })).2 = .ok { AppName := [0xef, 0xbf, 0xbd] } := by
    rfl
  rw [h2] at h
  have hn := congrArg Config.AppName (Except.ok.inj h)
  revert hn
  decide

/-- C3, amended. On a lawful filesystem, once the JSON encoding of a `Config` whose four
fields are valid UTF-8 (all of them may be empty) has been written to
`<name>/config.json`, `getConfigFileFromPath` succeeds and returns that `Config`. -/
theorem getConfigFileFromPath_roundtrip {σ : Type} (F : FS σ) (hF : F.Lawful)
    (name : String) (c : Config) (hc : c.ValidUTF8) (s s' : σ)
    (hw : F.WriteFile s (name ++ "/config.json") (jsonMarshalConfig c) = (none, s')) :
    getConfigFileFromPath F name s' = .ok c := by
  have hr := hF.read_write s _ _ s' hw
  have hpath : name ++ "/" ++ "config.json" = name ++ "/config.json" := by
    rw [String.append_assoc]; rfl
  simp only [getConfigFileFromPath, hpath, hr, jsonUnmarshalConfig_jsonMarshalConfig c hc]

/-- C3 amended, on the empty in-memory filesystem with the `Config` of the test, whose name
is the bytes of `test`, and with the empty `Config`. -/
theorem getConfigFileFromPath_roundtrip_witness :
    memFS.Lawful ∧
    Config.ValidUTF8 { AppName := Utf8.encode "test".data } ∧
    Config.ValidUTF8 {} ∧
    jsonMarshalConfig { AppName := Utf8.encode "test".data } =
      "\x7b\"appName\":\"test\"\x7d" ∧
    memFS.WriteFile [] ("test" ++ "/config.json")
        (jsonMarshalConfig { AppName := Utf8.encode "test".data }) =
      (none, [("test/config.json", "\x7b\"appName\":\"test\"\x7d")]) ∧
    getConfigFileFromPath memFS "test"
      [("test/config.json", "\x7b\"appName\":\"test\"\x7d")] =
        .ok { AppName := Utf8.encode "test".data } ∧
    getConfigFileFromPath memFS "test"
      (memFS.WriteFile [] ("test" ++ "/config.json") (jsonMarshalConfig {})).2 = .ok {} :=
  have hv : Config.ValidUTF8 { AppName := Utf8.encode "test".data } :=
    ⟨⟨"test".data, rfl⟩, ⟨[], rfl⟩, ⟨[], rfl⟩, ⟨[], rfl⟩⟩
  have he : Config.ValidUTF8 {} := ⟨⟨[], rfl⟩, ⟨[], rfl⟩, ⟨[], rfl⟩, ⟨[], rfl⟩⟩
  ⟨memFS_lawful, hv, he, by rfl, by rfl,
    getConfigFileFromPath_roundtrip memFS memFS_lawful "test"
      { AppName := Utf8.encode "test".data } hv [] _ (by rfl),
    getConfigFileFromPath_roundtrip memFS memFS_lawful "test" {} he [] _ rfl⟩

/-- C10. On a lawful filesystem with no file at `<name>/config.json`,
`getConfigFileFromPath` fails with the message `<name>/config.json not found`; this is not
the message `failed to unmarshal file <name>/config.json`, with which it fails on a file
that is there but empty. -/
theorem getConfigFileFromPath_not_found {σ : Type} (F : FS σ) (hF : F.Lawful)
    (name : String) (s : σ) (habsent : F.Exists s (name ++ "/config.json") = .ok false) :
    (∃ err, getConfigFileFromPath F name s = .error err ∧
      err.message = name ++ "/config.json not found") ∧
    name ++ "/config.json not found" ≠ "failed to unmarshal file " ++ name ++ "/config.json" ∧
    (∀ t, F.ReadFile t (name ++ "/config.json") = .ok "" →
      ∃ err, getConfigFileFromPath F name t = .error err ∧
        err.message = "failed to unmarshal file " ++ name ++ "/config.json") := by
  have hpath : name ++ "/" ++ "config.json" = name ++ "/config.json" := by
    rw [String.append_assoc]; rfl
  refine ⟨?_, ?_, ?_⟩
  · obtain ⟨e, he⟩ := hF.read_absent s _ habsent
    refine ⟨.errorf (name ++ "/config.json not found"), ?_, rfl⟩
    simp only [getConfigFileFromPath, hpath, he]
    rw [String.append_assoc]; rfl
  · intro h
    have hlen := congrArg String.length h
    simp only [String.length_append] at hlen
    have h1 : "/config.json not found".length = 22 := by decide
    have h2 : "failed to unmarshal file ".length = 25 := by decide
    have h3 : "/config.json".length = 12 := by decide
    omega
  · intro t ht
    refine ⟨.errorf ("failed to unmarshal file " ++ name ++ "/config.json"), ?_, rfl⟩
    have hu : jsonUnmarshalConfig "" = none := by rfl
    simp only [getConfigFileFromPath, hpath, ht, hu]
    rw [String.append_assoc]

/-- C10, on the empty in-memory filesystem with the name of the test. -/
theorem getConfigFileFromPath_not_found_witness :
    memFS.Lawful ∧ memFS.Exists [] ("test" ++ "/config.json") = .ok false ∧
    getConfigFileFromPath memFS "test" [] = .error (.errorf "test/config.json not found") ∧
    getConfigFileFromPath memFS "test" [("test/config.json", "")] =
      .error (.errorf "failed to unmarshal file test/config.json") ∧
    ((∃ err, getConfigFileFromPath memFS "test" [] = .error err ∧
      err.message = "test" ++ "/config.json not found") ∧
    "test" ++ "/config.json not found" ≠
      "failed to unmarshal file " ++ "test" ++ "/config.json" ∧
    (∀ t, memFS.ReadFile t ("test" ++ "/config.json") = .ok "" →
      ∃ err, getConfigFileFromPath memFS "test" t = .error err ∧
        err.message = "failed to unmarshal file " ++ "test" ++ "/config.json")) :=
  ⟨memFS_lawful, by rfl, by rfl, by rfl,
    getConfigFileFromPath_not_found memFS memFS_lawful "test" [] (by rfl)⟩

/-! ## The field validation of the bootstrap kustomization -/

/-- The package `kustomizeTypes` accepts a descriptor with its own apiVersion and kind. -/
theorem kustomizeTypes_acceptsStandard : kustomizeTypes.AcceptsStandard where
  postUnmarshalling := by
    intro k hk
    have h1 : k.TypeMeta.Kind = "Kustomization" := by rw [hk]; rfl
    have h2 : k.TypeMeta.APIVersion = "kustomize.config.k8s.io/v1beta1" := by rw [hk]; rfl
    simp [kustomizeTypes, h1, h2]
  enforceFields := by
    intro k hk
    have h1 : k.TypeMeta.Kind = "Kustomization" := by rw [hk]; rfl
    have h2 : k.TypeMeta.APIVersion = "kustomize.config.k8s.io/v1beta1" := by rw [hk]; rfl
    simp [kustomizeTypes, h1, h2]

/-- C11. With a kustomize library that accepts its own apiVersion and kind, for every
bootstrap application: once `createCreds` has returned the credentials, the descriptor
handed to `EnforceFields` carries the standard apiVersion and kind, `EnforceFields` reports
no error and `Kustomization()` returns the descriptor; so `Kustomization()` fails exactly
when `createCreds` fails, with the error of `createCreds`, and never on the branch
`kustomization errors: ...`. -/
theorem Kustomization_fails_only_in_createCreds (K : KustomizeTypes) (Y : Yaml)
    (app : bootstrapApp) (hK : K.AcceptsStandard) :
    (∀ credsYAML, createCreds Y app.repoUrl = .ok credsYAML →
      (K.FixKustomizationPostUnmarshalling
        { Resources := [app.application.path]
          TypeMeta := { APIVersion := K.KustomizationVersion, Kind := K.KustomizationKind }
          ConfigMapGenerator :=
            [{ GeneratorArgs :=
                { Name := "argocd-cm"
                  Behavior := BehaviorMerge
                  KvPairSources :=
                    { LiteralSources := ["repository.credentials=" ++ credsYAML] } } }]
          Namespace := app.application.namespace_ }).TypeMeta =
        { APIVersion := K.KustomizationVersion, Kind := K.KustomizationKind } ∧
      K.EnforceFields (K.FixKustomizationPostUnmarshalling
        { Resources := [app.application.path]
          TypeMeta := { APIVersion := K.KustomizationVersion, Kind := K.KustomizationKind }
          ConfigMapGenerator :=
            [{ GeneratorArgs :=
                { Name := "argocd-cm"
                  Behavior := BehaviorMerge
                  KvPairSources :=
                    { LiteralSources := ["repository.credentials=" ++ credsYAML] } } }]
          Namespace := app.application.namespace_ }) = [] ∧
      ∃ k, app.Kustomization K Y = .ok k) ∧
    (∀ err, app.Kustomization K Y = .error err ↔ createCreds Y app.repoUrl = .error err) := by
  have hok : ∀ credsYAML, createCreds Y app.repoUrl = .ok credsYAML →
      K.EnforceFields (K.FixKustomizationPostUnmarshalling
        { Resources := [app.application.path]
          TypeMeta := { APIVersion := K.KustomizationVersion, Kind := K.KustomizationKind }
          ConfigMapGenerator :=
            [{ GeneratorArgs :=
                { Name := "argocd-cm"
                  Behavior := BehaviorMerge
                  KvPairSources :=
                    { LiteralSources := ["repository.credentials=" ++ credsYAML] } } }]
          Namespace := app.application.namespace_ }) = [] ∧
      ∃ k, app.Kustomization K Y = .ok k := by
    intro credsYAML hc
    have hpost := hK.postUnmarshalling
      { Resources := [app.application.path]
        TypeMeta := { APIVersion := K.KustomizationVersion, Kind := K.KustomizationKind }
        ConfigMapGenerator :=
          [{ GeneratorArgs :=
              { Name := "argocd-cm"
                Behavior := BehaviorMerge
                KvPairSources :=
                  { LiteralSources := ["repository.credentials=" ++ credsYAML] } } }]
        Namespace := app.application.namespace_ } rfl
    have henf := hK.enforceFields _ hpost
    refine ⟨henf, ?_⟩
    unfold bootstrapApp.Kustomization
    rw [hc]
    simp only [henf, List.length_nil, gt_iff_lt, lt_self_iff_false, if_false]
    exact ⟨_, rfl⟩
  constructor
  · intro credsYAML hc
    exact ⟨hK.postUnmarshalling _ rfl, hok credsYAML hc⟩
  · intro err
    constructor
    · intro h
      cases hc : createCreds Y app.repoUrl with
      | error e =>
        unfold bootstrapApp.Kustomization at h
        rw [hc] at h
        simp only at h
        cases h
        rfl
      | ok credsYAML =>
        obtain ⟨-, k, hk⟩ := hok credsYAML hc
        rw [hk] at h
        cases h
    · intro hc
      unfold bootstrapApp.Kustomization
      rw [hc]

/-- C11, on `sampleBootstrap` with the kustomize package and `sampleYaml`. -/
theorem Kustomization_fails_only_in_createCreds_witness :
    kustomizeTypes.AcceptsStandard ∧
    createCreds sampleYaml sampleBootstrap.repoUrl = .ok "- url: https://github.com/owner/name\n" ∧
    ((∀ credsYAML, createCreds sampleYaml sampleBootstrap.repoUrl = .ok credsYAML →
      (kustomizeTypes.FixKustomizationPostUnmarshalling
        { Resources := [sampleBootstrap.application.path]
          TypeMeta :=
            { APIVersion := kustomizeTypes.KustomizationVersion
              Kind := kustomizeTypes.KustomizationKind }
          ConfigMapGenerator :=
            [{ GeneratorArgs :=
                { Name := "argocd-cm"
                  Behavior := BehaviorMerge
                  KvPairSources :=
                    { LiteralSources := ["repository.credentials=" ++ credsYAML] } } }]
          Namespace := sampleBootstrap.application.namespace_ }).TypeMeta =
        { APIVersion := kustomizeTypes.KustomizationVersion
          Kind := kustomizeTypes.KustomizationKind } ∧
      kustomizeTypes.EnforceFields (kustomizeTypes.FixKustomizationPostUnmarshalling
        { Resources := [sampleBootstrap.application.path]
          TypeMeta :=
            { APIVersion := kustomizeTypes.KustomizationVersion
              Kind := kustomizeTypes.KustomizationKind }
          ConfigMapGenerator :=
            [{ GeneratorArgs :=
                { Name := "argocd-cm"
                  Behavior := BehaviorMerge
                  KvPairSources :=
                    { LiteralSources := ["repository.credentials=" ++ credsYAML] } } }]
          Namespace := sampleBootstrap.application.namespace_ }) = [] ∧
      ∃ k, sampleBootstrap.Kustomization kustomizeTypes sampleYaml = .ok k) ∧
    (∀ err, sampleBootstrap.Kustomization kustomizeTypes sampleYaml = .error err ↔
      createCreds sampleYaml sampleBootstrap.repoUrl = .error err)) :=
  ⟨kustomizeTypes_acceptsStandard, by rfl,
    Kustomization_fails_only_in_createCreds kustomizeTypes sampleYaml sampleBootstrap
      kustomizeTypes_acceptsStandard⟩

end Autopilot
